import Mathlib

set_option maxRecDepth 100000

/-!
Verification of the query execution and result unification engine of
`age-plotter` (`src/age_plotter/services/query_executor.py`).

The Python code is shallowly embedded: dynamic Python values are modelled by
the inductive type `PyVal`, serialized result cells by `Cell`, and each
function of the source file by a Lean function of the same (snake-case
adapted) name.  Machine floats are not modelled (`PyVal.pfloat` keeps the
parsed lexeme only); no claim below depends on float arithmetic.
-/

/-- A dynamic Python value as it appears in query results: `None`, booleans,
integers, floats (kept as their source lexeme, since IEEE arithmetic is not
modelled), strings, lists and dicts (association lists in insertion order,
as CPython dicts preserve insertion order). -/
inductive PyVal where
  | pnull
  | pbool (b : Bool)
  | pint (n : Int)
  | pfloat (lexeme : String)
  | pstr (s : String)
  | plist (xs : List PyVal)
  | pdict (kvs : List (String × PyVal))

/-- Whether a float lexeme denotes a nonzero value: every explicit mantissa
digit zero means the value is `0.0`.  (Exponent underflow to `0.0` is not
modelled; no modelled code path depends on it.) -/
def floatLexemeNonzero (l : String) : Bool :=
  if l = "nan" || l = "inf" || l = "-inf" then true
  else (l.toList.takeWhile (fun c => c ≠ 'e' ∧ c ≠ 'E')).any (fun c => c.isDigit && c ≠ '0')

/-- Python truthiness (`bool(v)`) for the modelled values. -/
def pyTruthy : PyVal → Bool
  | .pnull => false
  | .pbool b => b
  | .pint n => n != 0
  | .pfloat l => floatLexemeNonzero l
  | .pstr s => !s.isEmpty
  | .plist xs => !xs.isEmpty
  | .pdict kvs => !kvs.isEmpty

mutual

/-- Python `repr(v)`.  String quoting is simplified to a plain single-quoted
form (CPython additionally escapes quotes and control characters, which no
modelled value contains); float repr is the stored lexeme. -/
def pyRepr : PyVal → String
  | .pnull => "None"
  | .pbool true => "True"
  | .pbool false => "False"
  | .pint n => toString n
  | .pfloat l => l
  | .pstr s => "\x27" ++ s ++ "\x27"
  | .plist xs => "[" ++ pyReprElems xs ++ "]"
  | .pdict kvs => "\x7b" ++ pyReprPairs kvs ++ "\x7d"

/-- Comma-separated `repr` of list elements, as in CPython `repr(list)`. -/
def pyReprElems : List PyVal → String
  | [] => ""
  | [x] => pyRepr x
  | x :: y :: xs => pyRepr x ++ ", " ++ pyReprElems (y :: xs)

/-- Comma-separated `repr(key): repr(value)` pairs, as in CPython `repr(dict)`. -/
def pyReprPairs : List (String × PyVal) → String
  | [] => ""
  | [(k, v)] => "\x27" ++ k ++ "\x27: " ++ pyRepr v
  | (k, v) :: p :: xs => "\x27" ++ k ++ "\x27: " ++ pyRepr v ++ ", " ++ pyReprPairs (p :: xs)

end

/-- Python `str(v)`: identity on strings, `repr` otherwise. -/
def pyStr (v : PyVal) : String :=
  match v with
  | .pstr s => s
  | v => pyRepr v

/-- Python `d.get(key, default)`.  Every modelled call site passes a dict;
on a non-dict CPython would raise `AttributeError`, a path no modelled
input reaches, rendered here as the default. -/
def pyGet (v : PyVal) (key : String) (dflt : PyVal) : PyVal :=
  match v with
  | .pdict kvs =>
    match kvs.find? (fun kv => kv.1 == key) with
    | some kv => kv.2
    | none => dflt
  | _ => dflt

/-- Python `key in d` for a dict value (`False` on non-dicts, which the
source only ever asks after an `isinstance(elem, dict)` check). -/
def pyHasKey (v : PyVal) (key : String) : Bool :=
  match v with
  | .pdict kvs => kvs.any (fun kv => kv.1 == key)
  | _ => false

/-! ## String helpers (Python `str` methods over `List Char`) -/

/-- `listStarts pat cs`: `pat` is a prefix of `cs`. -/
def listStarts : List Char → List Char → Bool
  | [], _ => true
  | _ :: _, [] => false
  | p :: ps, c :: cs => p == c && listStarts ps cs

/-- `pat` occurs as a contiguous substring of `cs`. -/
def listContainsSub (pat : List Char) : List Char → Bool
  | [] => listStarts pat []
  | c :: cs => listStarts pat (c :: cs) || listContainsSub pat cs

/-- Python `pat in s` (substring containment). -/
def containsSub (pat s : String) : Bool := listContainsSub pat.toList s.toList

/-- Python `s.startswith(pre)`. -/
def strStartsWith (pre s : String) : Bool := listStarts pre.toList s.toList

/-- Left-to-right, non-overlapping replacement of `pat` by `sub`, fueled so
that it computes by reduction; fuel `|cs| + 1` always suffices, as every
step consumes at least one character of `cs`. -/
def replaceAllAux : Nat → List Char → List Char → List Char → List Char
  | 0, cs, _, _ => cs
  | _ + 1, [], _, _ => []
  | fuel + 1, c :: cs, pat, sub =>
    if listStarts pat (c :: cs) then
      sub ++ replaceAllAux fuel (List.drop pat.length (c :: cs)) pat sub
    else
      c :: replaceAllAux fuel cs pat sub

/-- Python `s.replace(pat, sub)`.  The source only calls it with the
nonempty patterns `"::path"`, `"::vertex"`, `"::edge"`. -/
def pyReplace (s pat sub : String) : String :=
  if pat.isEmpty then s
  else String.mk (replaceAllAux (s.length + 1) s.toList pat.toList sub.toList)

/-! ## JSON parsing (`json.loads`)

A total, fueled model of CPython's strict JSON decoder: objects, arrays,
strings with the standard escapes, integers, floats (lexeme only), the
literals `true`/`false`/`null` and the CPython extensions
`NaN`/`Infinity`/`-Infinity`.  Duplicate object keys keep the last value at
the first occurrence's position, as CPython dict assignment does. -/

/-- JSON whitespace accepted by the decoder between tokens. -/
def isJsonWs (c : Char) : Bool := c == ' ' || c == '\t' || c == '\n' || c == '\r'

/-- Drop leading JSON whitespace. -/
def skipJsonWs (cs : List Char) : List Char := cs.dropWhile isJsonWs

/-- Hexadecimal digit value. -/
def hexVal (c : Char) : Option Nat :=
  if c.isDigit then some (c.toNat - '0'.toNat)
  else if 'a' ≤ c ∧ c ≤ 'f' then some (c.toNat - 'a'.toNat + 10)
  else if 'A' ≤ c ∧ c ≤ 'F' then some (c.toNat - 'A'.toNat + 10)
  else none

/-- Parse a JSON string body (the opening quote already consumed), returning
the decoded characters and the remaining input.  Raw control characters are
rejected (strict mode); `\uXXXX` decodes via `Char.ofNat` (surrogate-pair
combination is not modelled; no modelled input contains surrogates). -/
def parseJsonStringAux : List Char → Option (List Char × List Char)
  | [] => none
  | c :: cs =>
    if c == '"' then some ([], cs)
    else if c == '\\' then
      match cs with
      | 'u' :: h1 :: h2 :: h3 :: h4 :: cs' =>
        match hexVal h1, hexVal h2, hexVal h3, hexVal h4 with
        | some a, some b, some c2, some d =>
          (parseJsonStringAux cs').map
            (fun r => (Char.ofNat (((a * 16 + b) * 16 + c2) * 16 + d) :: r.1, r.2))
        | _, _, _, _ => none
      | e :: cs' =>
        let esc : Option Char :=
          if e == '"' then some '"'
          else if e == '\\' then some '\\'
          else if e == '/' then some '/'
          else if e == 'b' then some '\x08'
          else if e == 'f' then some '\x0c'
          else if e == 'n' then some '\n'
          else if e == 'r' then some '\r'
          else if e == 't' then some '\t'
          else none
        match esc with
        | some ch => (parseJsonStringAux cs').map (fun r => (ch :: r.1, r.2))
        | none => none
      | [] => none
    else if c.toNat < 0x20 then none
    else (parseJsonStringAux cs).map (fun r => (c :: r.1, r.2))

/-- Digits-to-integer accumulator. -/
def digitsToNat (ds : List Char) : Nat :=
  ds.foldl (fun acc d => acc * 10 + (d.toNat - '0'.toNat)) 0

/-- Parse a JSON number at the head of the input: an optional minus sign, an
integer part without superfluous leading zeros, then an optional fraction
and exponent.  Pure integers become `pint`; anything with a fraction or
exponent becomes `pfloat` carrying the consumed lexeme. -/
def parseJsonNumber (cs : List Char) : Option (PyVal × List Char) :=
  let (neg, cs1) := match cs with
    | '-' :: t => (true, t)
    | t => (false, t)
  let intPart := cs1.takeWhile Char.isDigit
  let rest1 := cs1.dropWhile Char.isDigit
  if intPart.isEmpty then none
  else if intPart.length > 1 && intPart.headD '0' == '0' then none
  else
    let parseExp (rest : List Char) (lexFrac : List Char) : Option (PyVal × List Char) :=
      match rest with
      | e :: t =>
        if e == 'e' || e == 'E' then
          let (sgn, t1) := match t with
            | '+' :: t' => (['+'], t')
            | '-' :: t' => (['-'], t')
            | t' => (([] : List Char), t')
          let expDigits := t1.takeWhile Char.isDigit
          let rest2 := t1.dropWhile Char.isDigit
          if expDigits.isEmpty then none
          else
            some (.pfloat (String.mk ((if neg then ['-'] else []) ++ intPart ++ lexFrac
              ++ [e] ++ sgn ++ expDigits)), rest2)
        else if lexFrac.isEmpty then
          some (.pint (if neg then -(digitsToNat intPart : Int) else (digitsToNat intPart : Int)), rest)
        else
          some (.pfloat (String.mk ((if neg then ['-'] else []) ++ intPart ++ lexFrac)), rest)
      | [] =>
        if lexFrac.isEmpty then
          some (.pint (if neg then -(digitsToNat intPart : Int) else (digitsToNat intPart : Int)), [])
        else
          some (.pfloat (String.mk ((if neg then ['-'] else []) ++ intPart ++ lexFrac)), [])
    match rest1 with
    | '.' :: t =>
      let fracDigits := t.takeWhile Char.isDigit
      let rest2 := t.dropWhile Char.isDigit
      if fracDigits.isEmpty then none
      else parseExp rest2 ('.' :: fracDigits)
    | rest => parseExp rest []

/-- CPython dict assignment `d[k] = v`: replace in place if the key exists,
else append. -/
def dictAssign (kvs : List (String × PyVal)) (k : String) (v : PyVal) :
    List (String × PyVal) :=
  if kvs.any (fun kv => kv.1 == k) then
    kvs.map (fun kv => if kv.1 == k then (k, v) else kv)
  else kvs ++ [(k, v)]

/-- Fold parsed object members through `dictAssign` (duplicate keys:
last value wins, first position kept). -/
def dedupPairs (pairs : List (String × PyVal)) : List (String × PyVal) :=
  pairs.foldl (fun acc kv => dictAssign acc kv.1 kv.2) []

mutual

/-- Parse one JSON value at the head of the input (whitespace already
skipped by the caller).  The fuel decreases on every recursive step; each
step strictly consumes input, so fuel `|input| + 8` suffices. -/
def parseJsonValue : Nat → List Char → Option (PyVal × List Char)
  | 0, _ => none
  | _ + 1, [] => none
  | fuel + 1, c :: cs =>
    if c == '"' then
      (parseJsonStringAux cs).map (fun r => (.pstr (String.mk r.1), r.2))
    else if c == '[' then
      match skipJsonWs cs with
      | ']' :: r => some (.plist [], r)
      | cs2 => (parseJsonArrayItems fuel cs2).map (fun r => (.plist r.1, r.2))
    else if c == '\x7b' then
      match skipJsonWs cs with
      | '\x7d' :: r => some (.pdict [], r)
      | cs2 => (parseJsonObjectItems fuel cs2).map (fun r => (.pdict (dedupPairs r.1), r.2))
    else if listStarts "true".toList (c :: cs) then some (.pbool true, (c :: cs).drop 4)
    else if listStarts "false".toList (c :: cs) then some (.pbool false, (c :: cs).drop 5)
    else if listStarts "null".toList (c :: cs) then some (.pnull, (c :: cs).drop 4)
    else if listStarts "NaN".toList (c :: cs) then some (.pfloat "nan", (c :: cs).drop 3)
    else if listStarts "Infinity".toList (c :: cs) then some (.pfloat "inf", (c :: cs).drop 8)
    else if listStarts "-Infinity".toList (c :: cs) then some (.pfloat "-inf", (c :: cs).drop 9)
    else if c == '-' || c.isDigit then parseJsonNumber (c :: cs)
    else none

/-- Parse the comma-separated items of a nonempty JSON array, positioned at
the first item, up to and including the closing bracket. -/
def parseJsonArrayItems : Nat → List Char → Option (List PyVal × List Char)
  | 0, _ => none
  | fuel + 1, cs =>
    match parseJsonValue fuel cs with
    | none => none
    | some (v, r) =>
      match skipJsonWs r with
      | ',' :: r2 => (parseJsonArrayItems fuel (skipJsonWs r2)).map (fun p => (v :: p.1, p.2))
      | ']' :: r2 => some ([v], r2)
      | _ => none

/-- Parse the comma-separated members of a nonempty JSON object, positioned
at the first key, up to and including the closing brace. -/
def parseJsonObjectItems : Nat → List Char → Option (List (String × PyVal) × List Char)
  | 0, _ => none
  | fuel + 1, cs =>
    match cs with
    | '"' :: cs1 =>
      match parseJsonStringAux cs1 with
      | none => none
      | some (k, r) =>
        match skipJsonWs r with
        | ':' :: r2 =>
          match parseJsonValue fuel (skipJsonWs r2) with
          | none => none
          | some (v, r3) =>
            match skipJsonWs r3 with
            | ',' :: r4 =>
              (parseJsonObjectItems fuel (skipJsonWs r4)).map
                (fun p => ((String.mk k, v) :: p.1, p.2))
            | '\x7d' :: r4 => some ([(String.mk k, v)], r4)
            | _ => none
        | _ => none
    | _ => none

end

/-- `json.loads(s)`: parse a complete JSON document, allowing surrounding
whitespace, rejecting trailing garbage.  `none` models `JSONDecodeError`. -/
def jsonLoads (s : String) : Option PyVal :=
  match parseJsonValue (s.length + 8) (skipJsonWs s.toList) with
  | some (v, rest) => if (skipJsonWs rest).isEmpty then some v else none
  | none => none

/-! ## Canonical result model (`models/result.py`)

`GraphNode.labels`, `GraphRelationship.type` and the two `properties`
fields keep the dynamic `PyVal` type: the Python dataclasses annotate them
as `list[str]` / `str` / `dict` but do not enforce it, and the relational
normalizer stores whatever JSON value the `label` / `properties` fields
carried.  `execution_time_ms` (wall-clock float) is not modelled. -/

/-- A node in query results (`GraphNode`). -/
structure GraphNode where
  id : String
  labels : List PyVal
  properties : PyVal

/-- A relationship in query results (`GraphRelationship`). -/
structure GraphRelationship where
  id : String
  type : PyVal
  start_node_id : String
  end_node_id : String
  properties : PyVal

/-- A serialized cell value as produced by the two normalizers.  The
`nodeRef`/`relRef`/`pathRef` constructors are the Python dicts
`{"__type": "node"|"rel", "id": ..., "display": ...}` and
`{"__type": "path", "display": ...}`; `mapping` is an ordinary Python dict
whose values were serialized element-wise, and `scalar` is any other value
passed through unchanged. -/
inductive Cell where
  | scalar (v : PyVal)
  | list (xs : List Cell)
  | mapping (kvs : List (String × Cell))
  | nodeRef (id : String) (display : String)
  | relRef (id : String) (display : String)
  | pathRef (display : String)

/-- The string Python's `val.get("__type")` yields on a serialized cell,
when the cell is a dict and that entry is a string.  The reference cells
carry their tag by construction; a plain mapping (serialized or passed
through) can also carry a `"__type"` entry, exactly as in the source's
structural checks. -/
def graphTypeTag : Cell → Option String
  | .nodeRef _ _ => some "node"
  | .relRef _ _ => some "rel"
  | .pathRef _ => some "path"
  | .mapping kvs =>
    match kvs.find? (fun kv => kv.1 == "__type") with
    | some (_, .scalar (.pstr t)) => some t
    | _ => none
  | .scalar (.pdict kvs) =>
    match kvs.find? (fun kv => kv.1 == "__type") with
    | some (_, .pstr t) => some t
    | _ => none
  | _ => none

/-- `_is_graph_value`: the cell is a dict whose `__type` is
`"node"`, `"rel"` or `"path"`. -/
def isGraphValue (c : Cell) : Bool :=
  match graphTypeTag c with
  | some t => t == "node" || t == "rel" || t == "path"
  | none => false

/-- The per-cell test of `_is_paths_only`: a dict whose `__type` is
exactly `"path"`. -/
def cellPathOnly (c : Cell) : Bool := graphTypeTag c == some "path"

/-- `_check_graph_compatible`: every cell of every row passes
`_is_graph_value`. -/
def checkGraphCompatible (rows : List (List Cell)) : Bool :=
  rows.all (fun row => row.all isGraphValue)

/-- `_is_paths_only`: the row set is nonempty and every cell is a
path-tagged dict. -/
def isPathsOnly (rows : List (List Cell)) : Bool :=
  !rows.isEmpty && rows.all (fun row => row.all cellPathOnly)

/-- Unified query result (`QueryResult`), without the unmodelled
`execution_time_ms` float field. -/
structure QueryResult where
  columns : List String
  rows : List (List Cell)
  nodes : List GraphNode
  relationships : List GraphRelationship
  row_count : Nat
  is_graph_compatible : Bool
  is_paths_only : Bool

/-- Query execution error (`QueryError`); the `line` field is never set by
the executor and is omitted. -/
structure QueryError where
  message : String
  code : Option String

/-! ## Display names (`_get_display_name`) -/

/-- Python `val[:50] + "..." if len(val) > 50 else val`. -/
def truncateDisplay (s : String) : String :=
  if s.length > 50 then String.mk (s.toList.take 50) ++ "..." else s

/-- The fixed priority order of display keys. -/
def displayKeys : List String := ["name", "title", "label", "id"]

/-- Walk the display keys: the first key present in the dict with a truthy
value wins (a present-but-falsy value falls through to the next key). -/
def getDisplayNameGo (keys : List String) (kvs : List (String × PyVal)) : String :=
  match keys with
  | [] => ""
  | k :: rest =>
    match kvs.find? (fun kv => kv.1 == k) with
    | some kv => if pyTruthy kv.2 then truncateDisplay (pyStr kv.2) else getDisplayNameGo rest kvs
    | none => getDisplayNameGo rest kvs

/-- `_get_display_name(props)`.  On a non-dict `props` CPython either finds
no key or raises `TypeError` at `key in props` / `props[key]` (a run that
produces no result); both are rendered as the empty display. -/
def getDisplayName (props : PyVal) : String :=
  match props with
  | .pdict kvs => getDisplayNameGo displayKeys kvs
  | _ => ""

/-! ## Graph-native (Neo4j) value normalizer (`_serialize_neo4j_value`) -/

/-- The data of a `neo4j.graph.Node` driver value: element id, labels,
properties. -/
structure NodeInfo where
  elementId : String
  labels : List String
  props : List (String × PyVal)

/-- The data of a `neo4j.graph.Relationship` driver value.  `startId` /
`endId` are the element ids of the endpoint nodes, `""` when the endpoint
is absent, as in the source's `if val.start_node else ""`. -/
structure RelInfo where
  elementId : String
  relType : String
  startId : String
  endId : String
  props : List (String × PyVal)

/-- A native Neo4j driver value: typed node / relationship / path objects,
or a plain scalar, list, or dict of further values. -/
inductive NVal where
  | nnode (n : NodeInfo)
  | nrel (r : RelInfo)
  | npath (pathNodes : List NodeInfo) (pathRels : List RelInfo)
  | nscalar (v : PyVal)
  | nlist (xs : List NVal)
  | ndict (kvs : List (String × NVal))

/-- The `GraphNode` built from a driver node. -/
def graphNodeOfInfo (n : NodeInfo) : GraphNode :=
  { id := n.elementId, labels := n.labels.map PyVal.pstr, properties := PyVal.pdict n.props }

/-- The `GraphRelationship` built from a driver relationship. -/
def graphRelOfInfo (r : RelInfo) : GraphRelationship :=
  { id := r.elementId, type := PyVal.pstr r.relType, start_node_id := r.startId,
    end_node_id := r.endId, properties := PyVal.pdict r.props }

/-- `if node_id not in nodes: nodes[node_id] = ...` on the accumulating
node map (insertion order preserved, as `dict.values()` is). -/
def insertNodeIfAbsent (nodes : List GraphNode) (g : GraphNode) : List GraphNode :=
  if nodes.any (fun h => h.id == g.id) then nodes else nodes ++ [g]

/-- `if rel_id not in rels: rels[rel_id] = ...` on the relationship map. -/
def insertRelIfAbsent (rels : List GraphRelationship) (g : GraphRelationship) :
    List GraphRelationship :=
  if rels.any (fun h => h.id == g.id) then rels else rels ++ [g]

/-- The `isinstance(val, Node)` branch: register the node if its element id
is new and build the `{"__type": "node", ...}` reference cell. -/
def serializeNodeInfo (n : NodeInfo) (nodes : List GraphNode) : Cell × List GraphNode :=
  let nodes' := insertNodeIfAbsent nodes (graphNodeOfInfo n)
  let label := n.labels.headD ""
  let display := getDisplayName (PyVal.pdict n.props)
  let displayText :=
    if label != "" && display != "" then "(" ++ label ++ ": " ++ display ++ ")"
    else if label != "" then "(" ++ label ++ ")"
    else "(Node)"
  (Cell.nodeRef n.elementId displayText, nodes')

/-- The `isinstance(val, Relationship)` branch. -/
def serializeRelInfo (r : RelInfo) (rels : List GraphRelationship) :
    Cell × List GraphRelationship :=
  let rels' := insertRelIfAbsent rels (graphRelOfInfo r)
  let displayText := if r.relType != "" then "-[:" ++ r.relType ++ "]->" else "-[rel]->"
  (Cell.relRef r.elementId displayText, rels')

mutual

/-- `_serialize_neo4j_value(val, nodes, rels)`: nodes and relationships
become reference cells (registering canonical entries when new), a path
registers all its nodes and relationships and becomes a path reference
carrying its relationship count, lists and dicts are serialized
element-wise, scalars pass through. -/
def serializeNeo4jValue (v : NVal) (nodes : List GraphNode)
    (rels : List GraphRelationship) : Cell × List GraphNode × List GraphRelationship :=
  match v with
  | .nnode n =>
    let r := serializeNodeInfo n nodes
    (r.1, r.2, rels)
  | .nrel r =>
    let q := serializeRelInfo r rels
    (q.1, nodes, q.2)
  | .npath pathNodes pathRels =>
    let nodes' := pathNodes.foldl (fun acc n => (serializeNodeInfo n acc).2) nodes
    let rels' := pathRels.foldl (fun acc r => (serializeRelInfo r acc).2) rels
    (Cell.pathRef ("Path(length=" ++ toString pathRels.length ++ ")"), nodes', rels')
  | .nscalar s => (Cell.scalar s, nodes, rels)
  | .nlist xs =>
    let r := serializeNeo4jList xs nodes rels
    (Cell.list r.1, r.2)
  | .ndict kvs =>
    let r := serializeNeo4jKVs kvs nodes rels
    (Cell.mapping r.1, r.2)

/-- Element-wise serialization of a Python list value. -/
def serializeNeo4jList : List NVal → List GraphNode → List GraphRelationship →
    List Cell × List GraphNode × List GraphRelationship
  | [], nodes, rels => ([], nodes, rels)
  | x :: xs, nodes, rels =>
    let r := serializeNeo4jValue x nodes rels
    let q := serializeNeo4jList xs r.2.1 r.2.2
    (r.1 :: q.1, q.2)

/-- Entry-wise serialization of a Python dict value. -/
def serializeNeo4jKVs : List (String × NVal) → List GraphNode → List GraphRelationship →
    List (String × Cell) × List GraphNode × List GraphRelationship
  | [], nodes, rels => ([], nodes, rels)
  | (k, x) :: xs, nodes, rels =>
    let r := serializeNeo4jValue x nodes rels
    let q := serializeNeo4jKVs xs r.2.1 r.2.2
    ((k, r.1) :: q.1, q.2)

end

/-- `record[col]`: a Neo4j record always carries every column key; an
absent key (unreachable for driver records) is rendered as `None`. -/
def lookupRecord (record : List (String × NVal)) (col : String) : NVal :=
  match record.find? (fun kv => kv.1 == col) with
  | some kv => kv.2
  | none => NVal.nscalar PyVal.pnull

/-- Serialize one record into a row, in column order. -/
def serializeNeo4jRow (cols : List String) (record : List (String × NVal))
    (nodes : List GraphNode) (rels : List GraphRelationship) :
    List Cell × List GraphNode × List GraphRelationship :=
  match cols with
  | [] => ([], nodes, rels)
  | c :: cs =>
    let r := serializeNeo4jValue (lookupRecord record c) nodes rels
    let q := serializeNeo4jRow cs record r.2.1 r.2.2
    (r.1 :: q.1, q.2)

/-- Serialize all records, threading the accumulating node/relationship
maps. -/
def serializeNeo4jRows (cols : List String) (records : List (List (String × NVal)))
    (nodes : List GraphNode) (rels : List GraphRelationship) :
    List (List Cell) × List GraphNode × List GraphRelationship :=
  match records with
  | [] => ([], nodes, rels)
  | rec :: rest =>
    let r := serializeNeo4jRow cols rec nodes rels
    let q := serializeNeo4jRows cols rest r.2.1 r.2.2
    (r.1 :: q.1, q.2)

/-- `_transform_neo4j_results(records, elapsed_ms)`.  An empty record list
returns `QueryResult(columns=[], rows=[])` with the dataclass defaults —
in particular `is_graph_compatible = True`.  Otherwise the columns come
from the first record, all records are serialized, and the two classifier
flags are computed (`is_graph_compatible` additionally requires a nonempty
relationship set). -/
def transformNeo4jResults (records : List (List (String × NVal))) : QueryResult :=
  match records with
  | [] =>
    { columns := [], rows := [], nodes := [], relationships := [],
      row_count := 0, is_graph_compatible := true, is_paths_only := false }
  | r0 :: rest =>
    let columns := r0.map (fun kv => kv.1)
    let r := serializeNeo4jRows columns (r0 :: rest) [] []
    { columns := columns, rows := r.1, nodes := r.2.1, relationships := r.2.2,
      row_count := r.1.length,
      is_graph_compatible := checkGraphCompatible r.1 && decide (r.2.2.length > 0),
      is_paths_only := isPathsOnly r.1 }

/-! ## Relational-graph (AGE) value normalizer (`_serialize_age_value`) -/

/-- The loop body of `_process_age_path`: classify each parsed path element
as an edge (it has a `start_id` or `end_id` key) or a vertex, register it
when its stringified id is nonempty and new, and count elements of each
kind (counted whether or not they were newly registered; non-dict elements
are skipped). -/
def processAgePathElems (elems : List PyVal) (nodes : List GraphNode)
    (rels : List GraphRelationship) (nodeCount relCount : Nat) :
    List GraphNode × List GraphRelationship × Nat × Nat :=
  match elems with
  | [] => (nodes, rels, nodeCount, relCount)
  | e :: rest =>
    match e with
    | .pdict kvs =>
      if pyHasKey (.pdict kvs) "start_id" || pyHasKey (.pdict kvs) "end_id" then
        let relId := pyStr (pyGet (.pdict kvs) "id" (.pstr ""))
        let rels' :=
          if relId != "" && !(rels.any (fun h => h.id == relId)) then
            rels ++ [{ id := relId, type := pyGet (.pdict kvs) "label" (.pstr ""),
                       start_node_id := pyStr (pyGet (.pdict kvs) "start_id" (.pstr "")),
                       end_node_id := pyStr (pyGet (.pdict kvs) "end_id" (.pstr "")),
                       properties := pyGet (.pdict kvs) "properties" (.pdict []) }]
          else rels
        processAgePathElems rest nodes rels' nodeCount (relCount + 1)
      else
        let nodeId := pyStr (pyGet (.pdict kvs) "id" (.pstr ""))
        let label := pyGet (.pdict kvs) "label" (.pstr "")
        let nodes' :=
          if nodeId != "" && !(nodes.any (fun h => h.id == nodeId)) then
            nodes ++ [{ id := nodeId, labels := if pyTruthy label then [label] else [],
                        properties := pyGet (.pdict kvs) "properties" (.pdict []) }]
          else nodes
        processAgePathElems rest nodes' rels (nodeCount + 1) relCount
    | _ => processAgePathElems rest nodes rels nodeCount relCount

/-- `_process_age_path(val, nodes, rels)`: strip the `::path` / `::vertex` /
`::edge` markers, parse the body; on a parsed array register its elements
and return a path reference cell with the counts, otherwise (parse failure
or non-array) return the original string unchanged. -/
def processAgePath (val : String) (nodes : List GraphNode)
    (rels : List GraphRelationship) : Cell × List GraphNode × List GraphRelationship :=
  let clean := pyReplace (pyReplace (pyReplace val "::path" "") "::vertex" "") "::edge" ""
  match jsonLoads clean with
  | some (.plist elems) =>
    let r := processAgePathElems elems nodes rels 0 0
    (Cell.pathRef ("Path(nodes=" ++ toString r.2.2.1 ++ ", rels=" ++ toString r.2.2.2 ++ ")"),
      r.1, r.2.1)
  | some _ => (Cell.scalar (.pstr val), nodes, rels)
  | none => (Cell.scalar (.pstr val), nodes, rels)

/-- `_process_age_graph_element(parsed, nodes, rels, original)`: a vertex
marker anywhere in the original string makes it a node, an edge marker a
relationship; ids are stringified, empty ids are never registered (but the
reference cell is still returned carrying the empty id); absent either
marker, the cell becomes `str(parsed)` — the Python rendering of the
parsed object, not the original string. -/
def processAgeGraphElement (parsed : PyVal) (nodes : List GraphNode)
    (rels : List GraphRelationship) (original : String) :
    Cell × List GraphNode × List GraphRelationship :=
  if containsSub "::vertex" original then
    let nodeId := pyStr (pyGet parsed "id" (.pstr ""))
    let label := pyGet parsed "label" (.pstr "")
    let props := pyGet parsed "properties" (.pdict [])
    let nodes' :=
      if nodeId != "" && !(nodes.any (fun h => h.id == nodeId)) then
        nodes ++ [{ id := nodeId, labels := if pyTruthy label then [label] else [],
                    properties := props }]
      else nodes
    let display := getDisplayName props
    let displayText :=
      if pyTruthy label && display != "" then "(" ++ pyStr label ++ ": " ++ display ++ ")"
      else if pyTruthy label then "(" ++ pyStr label ++ ")"
      else "(Node)"
    (Cell.nodeRef nodeId displayText, nodes', rels)
  else if containsSub "::edge" original then
    let relId := pyStr (pyGet parsed "id" (.pstr ""))
    let relType := pyGet parsed "label" (.pstr "")
    let rels' :=
      if relId != "" && !(rels.any (fun h => h.id == relId)) then
        rels ++ [{ id := relId, type := relType,
                   start_node_id := pyStr (pyGet parsed "start_id" (.pstr "")),
                   end_node_id := pyStr (pyGet parsed "end_id" (.pstr "")),
                   properties := pyGet parsed "properties" (.pdict []) }]
      else rels
    let displayText := if pyTruthy relType then "-[:" ++ pyStr relType ++ "]->" else "-[rel]->"
    (Cell.relRef relId displayText, nodes, rels')
  else
    (Cell.scalar (.pstr (pyStr parsed)), nodes, rels)

/-- `_serialize_age_value(val, nodes, rels)`: `None` passes through; a
string starting with `[` and containing `::path` is processed as a path; a
string starting with `{` has its vertex/edge markers stripped and its body
JSON-parsed (on success the element is processed, on `JSONDecodeError` the
original string passes through); everything else passes through. -/
def serializeAgeValue (val : PyVal) (nodes : List GraphNode)
    (rels : List GraphRelationship) : Cell × List GraphNode × List GraphRelationship :=
  match val with
  | .pnull => (Cell.scalar .pnull, nodes, rels)
  | .pstr s =>
    if strStartsWith "[" s && containsSub "::path" s then
      processAgePath s nodes rels
    else if strStartsWith "\x7b" s then
      match jsonLoads (pyReplace (pyReplace s "::vertex" "") "::edge" "") with
      | some parsed => processAgeGraphElement parsed nodes rels s
      | none => (Cell.scalar (.pstr s), nodes, rels)
    else (Cell.scalar (.pstr s), nodes, rels)
  | v => (Cell.scalar v, nodes, rels)

/-- Serialize one raw AGE row. -/
def serializeAgeRow (row : List PyVal) (nodes : List GraphNode)
    (rels : List GraphRelationship) : List Cell × List GraphNode × List GraphRelationship :=
  match row with
  | [] => ([], nodes, rels)
  | v :: vs =>
    let r := serializeAgeValue v nodes rels
    let q := serializeAgeRow vs r.2.1 r.2.2
    (r.1 :: q.1, q.2)

/-- Serialize all raw AGE rows, threading the accumulating maps. -/
def serializeAgeRows (rowsRaw : List (List PyVal)) (nodes : List GraphNode)
    (rels : List GraphRelationship) :
    List (List Cell) × List GraphNode × List GraphRelationship :=
  match rowsRaw with
  | [] => ([], nodes, rels)
  | row :: rest =>
    let r := serializeAgeRow row nodes rels
    let q := serializeAgeRows rest r.2.1 r.2.2
    (r.1 :: q.1, q.2)

/-- `_transform_age_results(columns, rows_raw, elapsed_ms)` (no
empty-input shortcut, unlike the Neo4j transform). -/
def transformAgeResults (columns : List String) (rowsRaw : List (List PyVal)) :
    QueryResult :=
  let r := serializeAgeRows rowsRaw [] []
  { columns := columns, rows := r.1, nodes := r.2.1, relationships := r.2.2,
    row_count := r.1.length,
    is_graph_compatible := checkGraphCompatible r.1 && decide (r.2.2.length > 0),
    is_paths_only := isPathsOnly r.1 }

/-! ## Cypher column resolver (`_parse_cypher_return_columns`)

A direct model of the source's regex-driven parsing, for ASCII query text:
`\w` is `[A-Za-z0-9_]`, `\s` the ASCII whitespace class, matching is
case-insensitive, and the lazy `(.*?)` group ends at the earliest position
where a terminator alternative (`\s+ORDER\s+BY`, `\s+SKIP`, `\s+LIMIT`,
`\s+UNION`) or `$` (end of text, or just before a final newline) matches. -/

/-- Python regex `\w` (ASCII). -/
def isPyWordChar (c : Char) : Bool := c.isAlphanum || c == '_'

/-- Python regex `\s` (ASCII). -/
def isPyWs (c : Char) : Bool :=
  c == ' ' || c == '\t' || c == '\n' || c == '\r' || c == '\x0b' || c == '\x0c'

/-- Case-insensitively consume `pat` from the head of the input. -/
def ciConsume : List Char → List Char → Option (List Char)
  | [], cs => some cs
  | _ :: _, [] => none
  | p :: ps, c :: cs => if p.toLower == c.toLower then ciConsume ps cs else none

/-- Python `s.strip()` (ASCII whitespace). -/
def pyStrip (s : String) : String :=
  String.mk (((s.toList.dropWhile isPyWs).reverse.dropWhile isPyWs).reverse)

/-- Scan for the leftmost `\bRETURN\s+` (case-insensitive, word boundary
before `RETURN`), returning the remainder starting at the whitespace run
after the keyword. -/
def findReturnTail (prevIsWord : Bool) (cs : List Char) : Option (List Char) :=
  match cs with
  | [] => none
  | c :: rest =>
    let here : Option (List Char) :=
      if prevIsWord then none
      else
        match ciConsume "return".toList (c :: rest) with
        | some tail =>
          match tail with
          | t :: _ => if isPyWs t then some tail else none
          | [] => none
        | none => none
    match here with
    | some tail => some tail
    | none => findReturnTail (isPyWordChar c) rest

/-- Whether one of the terminator alternatives of the clause-bounding regex
matches at this position (each requires at least one whitespace character,
then its keyword; `ORDER` additionally requires whitespace and `BY`). -/
def isTermAt (cs : List Char) : Bool :=
  match cs with
  | [] => false
  | c :: _ =>
    if isPyWs c then
      let rest := cs.dropWhile isPyWs
      (match ciConsume "order".toList rest with
       | some r1 =>
         (match r1 with
          | w :: _ => isPyWs w && (ciConsume "by".toList (r1.dropWhile isPyWs)).isSome
          | [] => false)
       | none => false)
      || (ciConsume "skip".toList rest).isSome
      || (ciConsume "limit".toList rest).isSome
      || (ciConsume "union".toList rest).isSome
    else false

/-- Whether `$` matches at this position: end of text, or just before a
final newline (Python `$` without `re.MULTILINE`). -/
def isDollarAt (cs : List Char) : Bool :=
  match cs with
  | [] => true
  | ['\n'] => true
  | _ => false

/-- The lazy `(.*?)` group: take characters up to the earliest position
where a terminator or `$` matches. -/
def takeUntilTerm : List Char → List Char
  | [] => []
  | c :: cs => if isTermAt (c :: cs) || isDollarAt (c :: cs) then [] else c :: takeUntilTerm cs

/-- The depth-aware comma split of the return clause: depth goes up on `(`
and `[`, down on `)` and `]` (tracked as integers, as Python does), and a
comma splits only when both depths are zero.  Fragments at commas are
appended stripped (possibly empty); the trailing fragment only if nonempty
after stripping.  `current` is accumulated in reverse. -/
def splitTopLevelAux : List Char → List Char → Int → Int → List String
  | [], current, _, _ =>
    let last := pyStrip (String.mk current.reverse)
    if last.isEmpty then [] else [last]
  | c :: cs, current, pd, bd =>
    if c == '(' then splitTopLevelAux cs (c :: current) (pd + 1) bd
    else if c == ')' then splitTopLevelAux cs (c :: current) (pd - 1) bd
    else if c == '[' then splitTopLevelAux cs (c :: current) pd (bd + 1)
    else if c == ']' then splitTopLevelAux cs (c :: current) pd (bd - 1)
    else if c == ',' && pd == 0 && bd == 0 then
      pyStrip (String.mk current.reverse) :: splitTopLevelAux cs [] pd bd
    else splitTopLevelAux cs (c :: current) pd bd

/-- `re.search(r'\s+AS\s+(\w+)\s*$', col, re.IGNORECASE)` on a stripped
fragment: a nonempty trailing `\w+` run, preceded by whitespace, preceded
by `AS` (case-insensitive), preceded by at least one whitespace character. -/
def fragmentAlias (col : String) : Option String :=
  let rev := col.toList.reverse
  let aliasRun := rev.takeWhile isPyWordChar
  let r1 := rev.dropWhile isPyWordChar
  if aliasRun.isEmpty then none
  else if (r1.takeWhile isPyWs).isEmpty then none
  else
    match r1.dropWhile isPyWs with
    | s :: a :: r3 =>
      if (s.toLower == 's') && (a.toLower == 'a') then
        match r3 with
        | w :: _ => if isPyWs w then some (String.mk aliasRun.reverse) else none
        | [] => none
      else none
    | _ => none

/-- `re.match(r'^(\w+)$', col)`: the fragment is a single bare identifier. -/
def fragmentSimple (col : String) : Bool :=
  !col.isEmpty && col.toList.all isPyWordChar

/-- `re.match(r'^\w+\.(\w+)$', col)`: a property access, yielding the
trailing identifier. -/
def fragmentProp (col : String) : Option String :=
  let cs := col.toList
  let first := cs.takeWhile isPyWordChar
  if first.isEmpty then none
  else
    match cs.dropWhile isPyWordChar with
    | '.' :: r2 =>
      let second := r2.takeWhile isPyWordChar
      if second.isEmpty || !(r2.dropWhile isPyWordChar).isEmpty then none
      else some (String.mk second)
    | _ => none

/-- The per-fragment naming loop: strip, skip empty fragments, prefer an
explicit alias, then a bare identifier, then a property access's trailing
identifier, else synthesize `col<N>` with `N = len(result) + 1`. -/
def resolveColumns (frags : List String) (acc : List String) : List String :=
  match frags with
  | [] => acc.reverse
  | col0 :: rest =>
    let col := pyStrip col0
    if col.isEmpty then resolveColumns rest acc
    else
      match fragmentAlias col with
      | some a => resolveColumns rest (a :: acc)
      | none =>
        if fragmentSimple col then resolveColumns rest (col :: acc)
        else
          match fragmentProp col with
          | some p => resolveColumns rest (p :: acc)
          | none => resolveColumns rest (("col" ++ toString (acc.length + 1)) :: acc)

/-- `_parse_cypher_return_columns(cypher)`. -/
def parseCypherReturnColumns (cypher : String) : List String :=
  match findReturnTail false cypher.toList with
  | none => ["result"]
  | some tail =>
    let afterWs := tail.dropWhile isPyWs
    let afterDistinct :=
      match ciConsume "distinct".toList afterWs with
      | some r =>
        match r with
        | w :: _ => if isPyWs w then r.dropWhile isPyWs else afterWs
        | [] => afterWs
      | none => afterWs
    let clause := pyStrip (String.mk (takeUntilTerm afterDistinct))
    let result := resolveColumns (splitTopLevelAux clause.toList [] 0 0) []
    if result.isEmpty then ["result"] else result

/-! ## Execution registry, dispatcher and cancellation
(`execute_query`, `cancel_query`, `ExecutionContext`, `_running_queries`)

The asynchronous backend I/O is modelled by an outcome parameter: which of
the mutually exclusive terminal events the awaited backend operation
produced, plus the value of the record's `cancelled` flag at the moment a
failure is observed (the flag is set concurrently by `cancel_query`).
The global registry dict is threaded explicitly. -/

/-- `ExecutionContext`: the cancellation handle registered per session.
`hasNeo4jSession` / `hasPgConn` model the truthiness of the optional
`neo4j_session` / `pg_conn` fields; `pgPid` the optional backend pid. -/
structure ExecCtx where
  sessionId : String
  queryId : String
  hasNeo4jSession : Bool
  hasPgConn : Bool
  pgPid : Option Int
  cancelled : Bool

/-- The global `_running_queries` dict (session id → context). -/
abbrev Registry := List (String × ExecCtx)

/-- Dict lookup `_running_queries.get(session_id)`. -/
def registryGet (reg : Registry) (sid : String) : Option ExecCtx :=
  match (List.find? (fun kv => kv.1 == sid) reg) with
  | some kv => some kv.2
  | none => none

/-- Dict assignment `_running_queries[session_id] = ctx` (replace in place
or append). -/
def registrySet (reg : Registry) (sid : String) (ctx : ExecCtx) : Registry :=
  if (List.any reg (fun kv => kv.1 == sid)) then
    List.map (fun kv => if kv.1 == sid then (sid, ctx) else kv) reg
  else reg ++ [(sid, ctx)]

/-- `_running_queries.pop(session_id, None)`: idempotent removal. -/
def registryPop (reg : Registry) (sid : String) : Registry :=
  List.filter (fun kv => kv.1 != sid) reg

/-- Terminal event of the Neo4j adapter's awaited query + fetch:
success with the eagerly fetched records, `asyncio.TimeoutError`, or any
other exception with its message. -/
inductive Neo4jOutcome where
  | success (records : List (List (String × NVal)))
  | timedOut
  | failed (msg : String)

/-- Terminal event of the AGE adapter's execute + fetchall: success with
the cursor description columns and raw rows, `psycopg.errors.QueryCanceled`
(raised both for the server-side statement timeout and for an out-of-band
`pg_cancel_backend`), another `psycopg.Error` with message and sqlstate, or
an exception raised after registration but outside the inner try (e.g. the
`SET statement_timeout` statement failing), which propagates. -/
inductive AgeOutcome where
  | success (columns : List String) (rowsRaw : List (List PyVal))
  | queryCanceled
  | pgError (msg : String) (code : Option String)
  | raisedAfterRegister (msg : String)

/-- Which backend ran and what happened, or a failure before the execution
record was registered (connection open, extension load, pid fetch), which
propagates as an exception. -/
inductive BackendRun where
  | neo4jRun (o : Neo4jOutcome)
  | ageRun (pid : Option Int) (o : AgeOutcome)
  | preFailure (msg : String)

/-- What `execute_query` hands back to its caller: a canonical result, a
`QueryError`, or a propagated exception. -/
inductive ExecResult where
  | ok (r : QueryResult)
  | err (e : QueryError)
  | raised (msg : String)

/-- `execute_query(connection, query, timeout_ms, session_id)`: register an
execution record for the session (Neo4j: carrying the live session; AGE:
carrying the connection and backend pid), map the backend outcome to a
result — timeout → `TIMEOUT`; a failure with the cancelled flag set →
`CANCELLED`; Neo4j's `asyncio.TimeoutError` is classified before the flag
is consulted, while AGE's `QueryCanceled` means timeout only when the flag
is unset — and in the surrounding `finally`, pop the session's record on
every exit path. -/
def executeQuery (run : BackendRun) (flagAtFailure : Bool) (sid qid : String)
    (reg : Registry) : ExecResult × Registry :=
  let afterRun : ExecResult × Registry :=
    match run with
    | .preFailure msg => (.raised msg, reg)
    | .neo4jRun o =>
      let reg1 := registrySet reg sid
        { sessionId := sid, queryId := qid, hasNeo4jSession := true,
          hasPgConn := false, pgPid := none, cancelled := false }
      match o with
      | .success records => (.ok (transformNeo4jResults records), reg1)
      | .timedOut => (.err { message := "Query timed out", code := some "TIMEOUT" }, reg1)
      | .failed msg =>
        if flagAtFailure then
          (.err { message := "Query cancelled", code := some "CANCELLED" }, reg1)
        else (.err { message := msg, code := none }, reg1)
    | .ageRun pid o =>
      let reg1 := registrySet reg sid
        { sessionId := sid, queryId := qid, hasNeo4jSession := false,
          hasPgConn := true, pgPid := pid, cancelled := false }
      match o with
      | .success columns rowsRaw => (.ok (transformAgeResults columns rowsRaw), reg1)
      | .queryCanceled =>
        if flagAtFailure then
          (.err { message := "Query cancelled", code := some "CANCELLED" }, reg1)
        else (.err { message := "Query timed out", code := some "TIMEOUT" }, reg1)
      | .pgError msg code => (.err { message := msg, code := code }, reg1)
      | .raisedAfterRegister msg => (.raised msg, reg1)
  (afterRun.1, registryPop afterRun.2 sid)

/-- The backend-specific termination actions `cancel_query` can issue. -/
inductive CancelAction where
  | closeNeo4jSession (sid : String)
  | pgCancelBackend (pid : Int)

/-- `cancel_query(session_id)`: no record → `False`; otherwise set the
record's cancelled flag, then close the Neo4j session (→ `True`), or, for a
record with a connection and a truthy pid, issue `pg_cancel_backend` over a
freshly opened side connection (→ `True`, or `False` if that side
connection or command raises, modelled by `sideConnOk`); a record with
neither handle → `False`.  Returns the answer, the updated registry, and
the termination actions issued. -/
def cancelQuery (reg : Registry) (sideConnOk : Bool) (sid : String) :
    Bool × Registry × List CancelAction :=
  match registryGet reg sid with
  | none => (false, reg, [])
  | some ctx =>
    let reg' := registrySet reg sid { ctx with cancelled := true }
    if ctx.hasNeo4jSession then (true, reg', [.closeNeo4jSession sid])
    else
      match ctx.pgPid with
      | some pid =>
        if ctx.hasPgConn && pid != 0 then
          if sideConnOk then (true, reg', [.pgCancelBackend pid]) else (false, reg', [])
        else (false, reg', [])
      | none => (false, reg', [])

/-! ## Reference-cell collectors and the produced-result predicate -/

mutual

/-- The node identities referenced by a cell, anywhere inside nested
lists/mappings. -/
def cellNodeIds : Cell → List String
  | .nodeRef i _ => [i]
  | .list xs => cellsNodeIds xs
  | .mapping kvs => kvsNodeIds kvs
  | _ => []

/-- Node identities referenced across a list of cells. -/
def cellsNodeIds : List Cell → List String
  | [] => []
  | c :: cs => cellNodeIds c ++ cellsNodeIds cs

/-- Node identities referenced across mapping entries. -/
def kvsNodeIds : List (String × Cell) → List String
  | [] => []
  | (_, c) :: cs => cellNodeIds c ++ kvsNodeIds cs

end

mutual

/-- The relationship identities referenced by a cell. -/
def cellRelIds : Cell → List String
  | .relRef i _ => [i]
  | .list xs => cellsRelIds xs
  | .mapping kvs => kvsRelIds kvs
  | _ => []

/-- Relationship identities referenced across a list of cells. -/
def cellsRelIds : List Cell → List String
  | [] => []
  | c :: cs => cellRelIds c ++ cellsRelIds cs

/-- Relationship identities referenced across mapping entries. -/
def kvsRelIds : List (String × Cell) → List String
  | [] => []
  | (_, c) :: cs => cellRelIds c ++ kvsRelIds cs

end

/-- Node identities referenced anywhere in a result's rows. -/
def rowsNodeIds (rows : List (List Cell)) : List String :=
  rows.foldr (fun row acc => cellsNodeIds row ++ acc) []

/-- Relationship identities referenced anywhere in a result's rows. -/
def rowsRelIds (rows : List (List Cell)) : List String :=
  rows.foldr (fun row acc => cellsRelIds row ++ acc) []

/-- A canonical query result as produced by `execute_query` on some backend
run: the successful-exit value of the dispatcher. -/
def ProducedResult (res : QueryResult) : Prop :=
  ∃ run flagAtFailure sid qid reg reg',
    executeQuery run flagAtFailure sid qid reg = (ExecResult.ok res, reg')

/-- The identities of the accumulated canonical nodes. -/
def nodeIdsOf (ns : List GraphNode) : List String := ns.map (fun g => g.id)

/-- The identities of the accumulated canonical relationships. -/
def relIdsOf (rs : List GraphRelationship) : List String := rs.map (fun g => g.id)

/-- How a normalizer step is allowed to change the accumulating maps: the
sets of registered identities only grow, and distinctness of identities is
preserved. -/
structure MapsEvolve (ns ns' : List GraphNode) (rs rs' : List GraphRelationship) : Prop where
  nodeMono : ∀ i, i ∈ nodeIdsOf ns → i ∈ nodeIdsOf ns'
  relMono : ∀ i, i ∈ relIdsOf rs → i ∈ relIdsOf rs'
  nodeNodup : (nodeIdsOf ns).Nodup → (nodeIdsOf ns').Nodup
  relNodup : (relIdsOf rs).Nodup → (relIdsOf rs').Nodup

/-- An AGE path value whose single cell is entirely a path but which
contains one relationship: the witness input for the paths-only analysis. -/
def agePathSample : String :=
  "[\x7b\"id\": 1, \"label\": \"P\", \"properties\": \x7b\x7d\x7d::vertex, "
    ++ "\x7b\"id\": 5, \"label\": \"K\", \"end_id\": 2, \"start_id\": 1, "
    ++ "\"properties\": \x7b\x7d\x7d::edge, "
    ++ "\x7b\"id\": 2, \"label\": \"P\", \"properties\": \x7b\x7d\x7d::vertex]::path"

/-- Every produced result is the output of one of the two transforms. -/
theorem producedResult_cases (res : QueryResult) (h : ProducedResult res) :
    (∃ records, res = transformNeo4jResults records) ∨
    (∃ columns rowsRaw, res = transformAgeResults columns rowsRaw) := by
  obtain ⟨run, flag, sid, qid, reg, reg', h⟩ := h
  cases run with
  | preFailure msg => simp [executeQuery] at h
  | neo4jRun o =>
    cases o with
    | success records =>
      left
      refine ⟨records, ?_⟩
      simp [executeQuery] at h
      exact h.1.symm
    | timedOut => simp [executeQuery] at h
    | failed msg =>
      by_cases hf : flag = true <;> simp [executeQuery, hf] at h
  | ageRun pid o =>
    cases o with
    | success columns rowsRaw =>
      right
      refine ⟨columns, rowsRaw, ?_⟩
      simp [executeQuery] at h
      exact h.1.symm
    | queryCanceled =>
      by_cases hf : flag = true <;> simp [executeQuery, hf] at h
    | pgError msg code => simp [executeQuery] at h
    | raisedAfterRegister msg => simp [executeQuery] at h

/-! ## Map-evolution lemmas for the normalizer state -/

theorem mapsEvolve_refl (ns : List GraphNode) (rs : List GraphRelationship) :
    MapsEvolve ns ns rs rs :=
  ⟨fun _ h => h, fun _ h => h, id, id⟩

theorem mapsEvolve_trans {a b c : List GraphNode} {r s t : List GraphRelationship}
    (h1 : MapsEvolve a b r s) (h2 : MapsEvolve b c s t) : MapsEvolve a c r t :=
  ⟨fun i hi => h2.nodeMono i (h1.nodeMono i hi), fun i hi => h2.relMono i (h1.relMono i hi),
   fun h => h2.nodeNodup (h1.nodeNodup h), fun h => h2.relNodup (h1.relNodup h)⟩

theorem appendNode_evolve (ns : List GraphNode) (g : GraphNode)
    (rs : List GraphRelationship) (h : ns.any (fun x => x.id == g.id) = false) :
    MapsEvolve ns (ns ++ [g]) rs rs := by
  refine ⟨fun i hi => ?_, fun _ h => h, fun hn => ?_, id⟩
  · simp only [nodeIdsOf, List.map_append]
    exact List.mem_append_left _ hi
  · simp only [List.any_eq_false, beq_iff_eq] at h
    simp only [nodeIdsOf, List.map_append, List.map_cons, List.map_nil] at hn ⊢
    rw [List.nodup_append]
    refine ⟨hn, List.nodup_singleton _, ?_⟩
    intro x hx hx'
    simp only [List.mem_singleton] at hx'
    subst hx'
    simp only [List.mem_map] at hx
    obtain ⟨y, hy, hyid⟩ := hx
    exact h y hy hyid

theorem appendRel_evolve (rs : List GraphRelationship) (g : GraphRelationship)
    (ns : List GraphNode) (h : rs.any (fun x => x.id == g.id) = false) :
    MapsEvolve ns ns rs (rs ++ [g]) := by
  refine ⟨fun _ h => h, fun i hi => ?_, id, fun hn => ?_⟩
  · simp only [relIdsOf, List.map_append]
    exact List.mem_append_left _ hi
  · simp only [List.any_eq_false, beq_iff_eq] at h
    simp only [relIdsOf, List.map_append, List.map_cons, List.map_nil] at hn ⊢
    rw [List.nodup_append]
    refine ⟨hn, List.nodup_singleton _, ?_⟩
    intro x hx hx'
    simp only [List.mem_singleton] at hx'
    subst hx'
    simp only [List.mem_map] at hx
    obtain ⟨y, hy, hyid⟩ := hx
    exact h y hy hyid

theorem insertNodeIfAbsent_evolve (ns : List GraphNode) (g : GraphNode)
    (rs : List GraphRelationship) : MapsEvolve ns (insertNodeIfAbsent ns g) rs rs := by
  unfold insertNodeIfAbsent
  by_cases h : ns.any (fun x => x.id == g.id) = true
  · simp [h]
    exact mapsEvolve_refl ns rs
  · simp [eq_false_of_ne_true h]
    exact appendNode_evolve ns g rs (eq_false_of_ne_true h)

theorem insertRelIfAbsent_evolve (rs : List GraphRelationship) (g : GraphRelationship)
    (ns : List GraphNode) : MapsEvolve ns ns rs (insertRelIfAbsent rs g) := by
  unfold insertRelIfAbsent
  by_cases h : rs.any (fun x => x.id == g.id) = true
  · simp [h]
    exact mapsEvolve_refl ns rs
  · simp [eq_false_of_ne_true h]
    exact appendRel_evolve rs g ns (eq_false_of_ne_true h)

theorem mem_insertNodeIfAbsent (ns : List GraphNode) (g : GraphNode) :
    g.id ∈ nodeIdsOf (insertNodeIfAbsent ns g) := by
  unfold insertNodeIfAbsent
  by_cases h : ns.any (fun x => x.id == g.id) = true
  · simp only [h, if_true]
    simp only [List.any_eq_true, beq_iff_eq] at h
    obtain ⟨x, hx, hid⟩ := h
    simp [nodeIdsOf]
    exact ⟨x, hx, hid⟩
  · simp [eq_false_of_ne_true h, nodeIdsOf]

theorem mem_insertRelIfAbsent (rs : List GraphRelationship) (g : GraphRelationship) :
    g.id ∈ relIdsOf (insertRelIfAbsent rs g) := by
  unfold insertRelIfAbsent
  by_cases h : rs.any (fun x => x.id == g.id) = true
  · simp only [h, if_true]
    simp only [List.any_eq_true, beq_iff_eq] at h
    obtain ⟨x, hx, hid⟩ := h
    simp [relIdsOf]
    exact ⟨x, hx, hid⟩
  · simp [eq_false_of_ne_true h, relIdsOf]

theorem serializeNodeInfo_evolve (n : NodeInfo) (ns : List GraphNode)
    (rs : List GraphRelationship) : MapsEvolve ns (serializeNodeInfo n ns).2 rs rs :=
  insertNodeIfAbsent_evolve ns (graphNodeOfInfo n) rs

theorem serializeRelInfo_evolve (r : RelInfo) (rs : List GraphRelationship)
    (ns : List GraphNode) : MapsEvolve ns ns rs (serializeRelInfo r rs).2 :=
  insertRelIfAbsent_evolve rs (graphRelOfInfo r) ns

theorem serializeNodeInfo_mem (n : NodeInfo) (ns : List GraphNode) :
    n.elementId ∈ nodeIdsOf (serializeNodeInfo n ns).2 :=
  mem_insertNodeIfAbsent ns (graphNodeOfInfo n)

theorem serializeRelInfo_mem (r : RelInfo) (rs : List GraphRelationship) :
    r.elementId ∈ relIdsOf (serializeRelInfo r rs).2 :=
  mem_insertRelIfAbsent rs (graphRelOfInfo r)

theorem foldl_serializeNodeInfo_evolve (pns : List NodeInfo) (ns : List GraphNode)
    (rs : List GraphRelationship) :
    MapsEvolve ns (pns.foldl (fun acc n => (serializeNodeInfo n acc).2) ns) rs rs := by
  induction pns generalizing ns with
  | nil => exact mapsEvolve_refl ns rs
  | cons n rest ih =>
    exact mapsEvolve_trans (serializeNodeInfo_evolve n ns rs)
      (ih ((serializeNodeInfo n ns).2))

theorem foldl_serializeRelInfo_evolve (prs : List RelInfo) (rs : List GraphRelationship)
    (ns : List GraphNode) :
    MapsEvolve ns ns rs (prs.foldl (fun acc r => (serializeRelInfo r acc).2) rs) := by
  induction prs generalizing rs with
  | nil => exact mapsEvolve_refl ns rs
  | cons r rest ih =>
    exact mapsEvolve_trans (serializeRelInfo_evolve r rs ns)
      (ih ((serializeRelInfo r rs).2))

/-! ## Invariants of the graph-native normalizer -/

mutual

theorem serializeNeo4jValue_inv (v : NVal) (ns : List GraphNode)
    (rs : List GraphRelationship) :
    MapsEvolve ns (serializeNeo4jValue v ns rs).2.1 rs (serializeNeo4jValue v ns rs).2.2 ∧
    (∀ i ∈ cellNodeIds (serializeNeo4jValue v ns rs).1,
        i ∈ nodeIdsOf (serializeNeo4jValue v ns rs).2.1) ∧
    (∀ i ∈ cellRelIds (serializeNeo4jValue v ns rs).1,
        i ∈ relIdsOf (serializeNeo4jValue v ns rs).2.2) := by
  cases v with
  | nnode n =>
    refine ⟨serializeNodeInfo_evolve n ns rs, ?_, ?_⟩
    · intro i hi
      have hi' : i ∈ [n.elementId] := hi
      simp only [List.mem_singleton] at hi'
      subst hi'
      exact serializeNodeInfo_mem n ns
    · intro i hi
      have hi' : i ∈ ([] : List String) := hi
      simp at hi'
  | nrel r =>
    refine ⟨serializeRelInfo_evolve r rs ns, ?_, ?_⟩
    · intro i hi
      have hi' : i ∈ ([] : List String) := hi
      simp at hi'
    · intro i hi
      have hi' : i ∈ [r.elementId] := hi
      simp only [List.mem_singleton] at hi'
      subst hi'
      exact serializeRelInfo_mem r rs
  | npath pns prs =>
    refine ⟨?_, ?_, ?_⟩
    · exact mapsEvolve_trans (foldl_serializeNodeInfo_evolve pns ns rs)
        (foldl_serializeRelInfo_evolve prs rs
          (pns.foldl (fun acc n => (serializeNodeInfo n acc).2) ns))
    · intro i hi
      have hi' : i ∈ ([] : List String) := hi
      simp at hi'
    · intro i hi
      have hi' : i ∈ ([] : List String) := hi
      simp at hi'
  | nscalar s =>
    refine ⟨mapsEvolve_refl ns rs, ?_, ?_⟩
    · intro i hi
      have hi' : i ∈ ([] : List String) := hi
      simp at hi'
    · intro i hi
      have hi' : i ∈ ([] : List String) := hi
      simp at hi'
  | nlist xs =>
    obtain ⟨he, hn, hr⟩ := serializeNeo4jList_inv xs ns rs
    exact ⟨he, fun i hi => hn i hi, fun i hi => hr i hi⟩
  | ndict kvs =>
    obtain ⟨he, hn, hr⟩ := serializeNeo4jKVs_inv kvs ns rs
    exact ⟨he, fun i hi => hn i hi, fun i hi => hr i hi⟩

theorem serializeNeo4jList_inv (xs : List NVal) (ns : List GraphNode)
    (rs : List GraphRelationship) :
    MapsEvolve ns (serializeNeo4jList xs ns rs).2.1 rs (serializeNeo4jList xs ns rs).2.2 ∧
    (∀ i ∈ cellsNodeIds (serializeNeo4jList xs ns rs).1,
        i ∈ nodeIdsOf (serializeNeo4jList xs ns rs).2.1) ∧
    (∀ i ∈ cellsRelIds (serializeNeo4jList xs ns rs).1,
        i ∈ relIdsOf (serializeNeo4jList xs ns rs).2.2) := by
  cases xs with
  | nil =>
    refine ⟨mapsEvolve_refl ns rs, ?_, ?_⟩
    · intro i hi
      have hi' : i ∈ ([] : List String) := hi
      simp at hi'
    · intro i hi
      have hi' : i ∈ ([] : List String) := hi
      simp at hi'
  | cons x xs =>
    obtain ⟨he1, hn1, hr1⟩ := serializeNeo4jValue_inv x ns rs
    obtain ⟨he2, hn2, hr2⟩ := serializeNeo4jList_inv xs
      (serializeNeo4jValue x ns rs).2.1 (serializeNeo4jValue x ns rs).2.2
    refine ⟨mapsEvolve_trans he1 he2, ?_, ?_⟩
    · intro i hi
      have hi' : i ∈ cellNodeIds (serializeNeo4jValue x ns rs).1 ++
          cellsNodeIds (serializeNeo4jList xs
            (serializeNeo4jValue x ns rs).2.1 (serializeNeo4jValue x ns rs).2.2).1 := hi
      rcases List.mem_append.mp hi' with h | h
      · exact he2.nodeMono i (hn1 i h)
      · exact hn2 i h
    · intro i hi
      have hi' : i ∈ cellRelIds (serializeNeo4jValue x ns rs).1 ++
          cellsRelIds (serializeNeo4jList xs
            (serializeNeo4jValue x ns rs).2.1 (serializeNeo4jValue x ns rs).2.2).1 := hi
      rcases List.mem_append.mp hi' with h | h
      · exact he2.relMono i (hr1 i h)
      · exact hr2 i h

theorem serializeNeo4jKVs_inv (kvs : List (String × NVal)) (ns : List GraphNode)
    (rs : List GraphRelationship) :
    MapsEvolve ns (serializeNeo4jKVs kvs ns rs).2.1 rs (serializeNeo4jKVs kvs ns rs).2.2 ∧
    (∀ i ∈ kvsNodeIds (serializeNeo4jKVs kvs ns rs).1,
        i ∈ nodeIdsOf (serializeNeo4jKVs kvs ns rs).2.1) ∧
    (∀ i ∈ kvsRelIds (serializeNeo4jKVs kvs ns rs).1,
        i ∈ relIdsOf (serializeNeo4jKVs kvs ns rs).2.2) := by
  cases kvs with
  | nil =>
    refine ⟨mapsEvolve_refl ns rs, ?_, ?_⟩
    · intro i hi
      have hi' : i ∈ ([] : List String) := hi
      simp at hi'
    · intro i hi
      have hi' : i ∈ ([] : List String) := hi
      simp at hi'
  | cons kv kvs =>
    obtain ⟨he1, hn1, hr1⟩ := serializeNeo4jValue_inv kv.2 ns rs
    obtain ⟨he2, hn2, hr2⟩ := serializeNeo4jKVs_inv kvs
      (serializeNeo4jValue kv.2 ns rs).2.1 (serializeNeo4jValue kv.2 ns rs).2.2
    refine ⟨mapsEvolve_trans he1 he2, ?_, ?_⟩
    · intro i hi
      have hi' : i ∈ cellNodeIds (serializeNeo4jValue kv.2 ns rs).1 ++
          kvsNodeIds (serializeNeo4jKVs kvs
            (serializeNeo4jValue kv.2 ns rs).2.1
            (serializeNeo4jValue kv.2 ns rs).2.2).1 := hi
      rcases List.mem_append.mp hi' with h | h
      · exact he2.nodeMono i (hn1 i h)
      · exact hn2 i h
    · intro i hi
      have hi' : i ∈ cellRelIds (serializeNeo4jValue kv.2 ns rs).1 ++
          kvsRelIds (serializeNeo4jKVs kvs
            (serializeNeo4jValue kv.2 ns rs).2.1
            (serializeNeo4jValue kv.2 ns rs).2.2).1 := hi
      rcases List.mem_append.mp hi' with h | h
      · exact he2.relMono i (hr1 i h)
      · exact hr2 i h

end

theorem serializeNeo4jRow_inv (cols : List String) (record : List (String × NVal))
    (ns : List GraphNode) (rs : List GraphRelationship) :
    MapsEvolve ns (serializeNeo4jRow cols record ns rs).2.1 rs
      (serializeNeo4jRow cols record ns rs).2.2 ∧
    (∀ i ∈ cellsNodeIds (serializeNeo4jRow cols record ns rs).1,
        i ∈ nodeIdsOf (serializeNeo4jRow cols record ns rs).2.1) ∧
    (∀ i ∈ cellsRelIds (serializeNeo4jRow cols record ns rs).1,
        i ∈ relIdsOf (serializeNeo4jRow cols record ns rs).2.2) := by
  induction cols generalizing ns rs with
  | nil =>
    refine ⟨mapsEvolve_refl ns rs, ?_, ?_⟩
    · intro i hi
      have hi' : i ∈ ([] : List String) := hi
      simp at hi'
    · intro i hi
      have hi' : i ∈ ([] : List String) := hi
      simp at hi'
  | cons c cs ih =>
    obtain ⟨he1, hn1, hr1⟩ := serializeNeo4jValue_inv (lookupRecord record c) ns rs
    obtain ⟨he2, hn2, hr2⟩ := ih (serializeNeo4jValue (lookupRecord record c) ns rs).2.1
      (serializeNeo4jValue (lookupRecord record c) ns rs).2.2
    refine ⟨mapsEvolve_trans he1 he2, ?_, ?_⟩
    · intro i hi
      have hi' : i ∈ cellNodeIds (serializeNeo4jValue (lookupRecord record c) ns rs).1 ++
          cellsNodeIds (serializeNeo4jRow cs record
            (serializeNeo4jValue (lookupRecord record c) ns rs).2.1
            (serializeNeo4jValue (lookupRecord record c) ns rs).2.2).1 := hi
      rcases List.mem_append.mp hi' with h | h
      · exact he2.nodeMono i (hn1 i h)
      · exact hn2 i h
    · intro i hi
      have hi' : i ∈ cellRelIds (serializeNeo4jValue (lookupRecord record c) ns rs).1 ++
          cellsRelIds (serializeNeo4jRow cs record
            (serializeNeo4jValue (lookupRecord record c) ns rs).2.1
            (serializeNeo4jValue (lookupRecord record c) ns rs).2.2).1 := hi
      rcases List.mem_append.mp hi' with h | h
      · exact he2.relMono i (hr1 i h)
      · exact hr2 i h

theorem serializeNeo4jRows_inv (cols : List String)
    (records : List (List (String × NVal))) (ns : List GraphNode)
    (rs : List GraphRelationship) :
    MapsEvolve ns (serializeNeo4jRows cols records ns rs).2.1 rs
      (serializeNeo4jRows cols records ns rs).2.2 ∧
    (∀ i ∈ rowsNodeIds (serializeNeo4jRows cols records ns rs).1,
        i ∈ nodeIdsOf (serializeNeo4jRows cols records ns rs).2.1) ∧
    (∀ i ∈ rowsRelIds (serializeNeo4jRows cols records ns rs).1,
        i ∈ relIdsOf (serializeNeo4jRows cols records ns rs).2.2) := by
  induction records generalizing ns rs with
  | nil =>
    refine ⟨mapsEvolve_refl ns rs, ?_, ?_⟩
    · intro i hi
      have hi' : i ∈ ([] : List String) := hi
      simp at hi'
    · intro i hi
      have hi' : i ∈ ([] : List String) := hi
      simp at hi'
  | cons rec rest ih =>
    obtain ⟨he1, hn1, hr1⟩ := serializeNeo4jRow_inv cols rec ns rs
    obtain ⟨he2, hn2, hr2⟩ := ih (serializeNeo4jRow cols rec ns rs).2.1
      (serializeNeo4jRow cols rec ns rs).2.2
    refine ⟨mapsEvolve_trans he1 he2, ?_, ?_⟩
    · intro i hi
      have hi' : i ∈ cellsNodeIds (serializeNeo4jRow cols rec ns rs).1 ++
          rowsNodeIds (serializeNeo4jRows cols rest
            (serializeNeo4jRow cols rec ns rs).2.1
            (serializeNeo4jRow cols rec ns rs).2.2).1 := hi
      rcases List.mem_append.mp hi' with h | h
      · exact he2.nodeMono i (hn1 i h)
      · exact hn2 i h
    · intro i hi
      have hi' : i ∈ cellsRelIds (serializeNeo4jRow cols rec ns rs).1 ++
          rowsRelIds (serializeNeo4jRows cols rest
            (serializeNeo4jRow cols rec ns rs).2.1
            (serializeNeo4jRow cols rec ns rs).2.2).1 := hi
      rcases List.mem_append.mp hi' with h | h
      · exact he2.relMono i (hr1 i h)
      · exact hr2 i h

theorem transformNeo4jResults_inv (records : List (List (String × NVal))) :
    (nodeIdsOf (transformNeo4jResults records).nodes).Nodup ∧
    (relIdsOf (transformNeo4jResults records).relationships).Nodup ∧
    (∀ i ∈ rowsNodeIds (transformNeo4jResults records).rows,
        i ∈ nodeIdsOf (transformNeo4jResults records).nodes) ∧
    (∀ i ∈ rowsRelIds (transformNeo4jResults records).rows,
        i ∈ relIdsOf (transformNeo4jResults records).relationships) := by
  cases records with
  | nil =>
    refine ⟨by simp [transformNeo4jResults, nodeIdsOf],
      by simp [transformNeo4jResults, relIdsOf], ?_, ?_⟩
    · intro i hi
      have hi' : i ∈ ([] : List String) := hi
      simp at hi'
    · intro i hi
      have hi' : i ∈ ([] : List String) := hi
      simp at hi'
  | cons r0 rest =>
    obtain ⟨he, hn, hr⟩ :=
      serializeNeo4jRows_inv (r0.map (fun kv => kv.1)) (r0 :: rest) [] []
    exact ⟨he.nodeNodup (by simp [nodeIdsOf]), he.relNodup (by simp [relIdsOf]),
      fun i hi => hn i hi, fun i hi => hr i hi⟩

/-! ## Invariants of the relational-graph normalizer -/

theorem mem_nil_elim {i : String} (hi : i ∈ ([] : List String)) {P : Prop} : P :=
  absurd hi (List.not_mem_nil i)

theorem any_id_false_of_cond {b : Bool} {any : Bool} (h : (b && !any) = true) :
    any = false := by
  cases any with
  | false => rfl
  | true => rw [Bool.not_true, Bool.and_false] at h; exact absurd h (by simp)

theorem any_id_true_of_not_cond {b : Bool} {any : Bool} (hb : b = true)
    (h : ¬((b && !any) = true)) : any = true := by
  cases any with
  | false => rw [hb, Bool.not_false, Bool.true_and] at h; exact absurd rfl h
  | true => rfl

theorem mem_nodeIds_of_any {ns : List GraphNode} {i : String}
    (h : ns.any (fun x => x.id == i) = true) : i ∈ nodeIdsOf ns := by
  simp only [List.any_eq_true, beq_iff_eq] at h
  obtain ⟨x, hx, hid⟩ := h
  simp only [nodeIdsOf, List.mem_map]
  exact ⟨x, hx, hid⟩

theorem mem_relIds_of_any {rs : List GraphRelationship} {i : String}
    (h : rs.any (fun x => x.id == i) = true) : i ∈ relIdsOf rs := by
  simp only [List.any_eq_true, beq_iff_eq] at h
  obtain ⟨x, hx, hid⟩ := h
  simp only [relIdsOf, List.mem_map]
  exact ⟨x, hx, hid⟩

theorem processAgePathElems_evolve (elems : List PyVal) (ns : List GraphNode)
    (rs : List GraphRelationship) (nc rc : Nat) :
    MapsEvolve ns (processAgePathElems elems ns rs nc rc).1 rs
      (processAgePathElems elems ns rs nc rc).2.1 := by
  induction elems generalizing ns rs nc rc with
  | nil => exact mapsEvolve_refl ns rs
  | cons e rest ih =>
    cases e with
    | pdict kvs =>
      by_cases hedge :
          (pyHasKey (.pdict kvs) "start_id" || pyHasKey (.pdict kvs) "end_id") = true
      · simp only [processAgePathElems, hedge, if_true]
        refine mapsEvolve_trans ?_ (ih ns _ nc (rc + 1))
        split
        · next hc => exact appendRel_evolve _ _ _ (any_id_false_of_cond hc)
        · exact mapsEvolve_refl ns rs
      · simp only [processAgePathElems, eq_false_of_ne_true hedge, Bool.false_eq_true,
          if_false]
        refine mapsEvolve_trans ?_ (ih _ rs (nc + 1) rc)
        split
        · next hc => exact appendNode_evolve _ _ _ (any_id_false_of_cond hc)
        · exact mapsEvolve_refl ns rs
    | pnull => exact ih ns rs nc rc
    | pbool b => exact ih ns rs nc rc
    | pint n => exact ih ns rs nc rc
    | pfloat l => exact ih ns rs nc rc
    | pstr s => exact ih ns rs nc rc
    | plist xs => exact ih ns rs nc rc

theorem processAgePath_inv (val : String) (ns : List GraphNode)
    (rs : List GraphRelationship) :
    MapsEvolve ns (processAgePath val ns rs).2.1 rs (processAgePath val ns rs).2.2 ∧
    cellNodeIds (processAgePath val ns rs).1 = [] ∧
    cellRelIds (processAgePath val ns rs).1 = [] := by
  cases hjl : jsonLoads
      (pyReplace (pyReplace (pyReplace val "::path" "") "::vertex" "") "::edge" "") with
  | none =>
    simp only [processAgePath, hjl]
    exact ⟨mapsEvolve_refl ns rs, rfl, rfl⟩
  | some v =>
    cases v with
    | plist elems =>
      simp only [processAgePath, hjl]
      exact ⟨processAgePathElems_evolve elems ns rs 0 0, rfl, rfl⟩
    | pnull =>
      simp only [processAgePath, hjl]
      exact ⟨mapsEvolve_refl ns rs, rfl, rfl⟩
    | pbool b =>
      simp only [processAgePath, hjl]
      exact ⟨mapsEvolve_refl ns rs, rfl, rfl⟩
    | pint n =>
      simp only [processAgePath, hjl]
      exact ⟨mapsEvolve_refl ns rs, rfl, rfl⟩
    | pfloat l =>
      simp only [processAgePath, hjl]
      exact ⟨mapsEvolve_refl ns rs, rfl, rfl⟩
    | pstr s =>
      simp only [processAgePath, hjl]
      exact ⟨mapsEvolve_refl ns rs, rfl, rfl⟩
    | pdict kvs =>
      simp only [processAgePath, hjl]
      exact ⟨mapsEvolve_refl ns rs, rfl, rfl⟩

theorem processAgeGraphElement_inv (parsed : PyVal) (ns : List GraphNode)
    (rs : List GraphRelationship) (original : String) :
    MapsEvolve ns (processAgeGraphElement parsed ns rs original).2.1 rs
      (processAgeGraphElement parsed ns rs original).2.2 ∧
    (∀ i ∈ cellNodeIds (processAgeGraphElement parsed ns rs original).1, i ≠ "" →
        i ∈ nodeIdsOf (processAgeGraphElement parsed ns rs original).2.1) ∧
    (∀ i ∈ cellRelIds (processAgeGraphElement parsed ns rs original).1, i ≠ "" →
        i ∈ relIdsOf (processAgeGraphElement parsed ns rs original).2.2) := by
  by_cases hv : containsSub "::vertex" original = true
  · simp only [processAgeGraphElement, hv, if_true]
    refine ⟨?_, ?_, fun i hi => mem_nil_elim hi⟩
    · split
      · next hc => exact appendNode_evolve _ _ _ (any_id_false_of_cond hc)
      · exact mapsEvolve_refl ns rs
    · intro i hi hne
      have hi' : i ∈ [pyStr (pyGet parsed "id" (.pstr ""))] := hi
      simp only [List.mem_singleton] at hi'
      subst hi'
      have hb : (pyStr (pyGet parsed "id" (.pstr "")) != "") = true := by simpa using hne
      split
      · next hc =>
        simp only [nodeIdsOf, List.map_append, List.map_cons, List.map_nil]
        exact List.mem_append_right _ (List.mem_singleton.mpr rfl)
      · next hc => exact mem_nodeIds_of_any (any_id_true_of_not_cond hb hc)
  · simp only [processAgeGraphElement, eq_false_of_ne_true hv, Bool.false_eq_true, if_false]
    by_cases he : containsSub "::edge" original = true
    · simp only [he, if_true]
      refine ⟨?_, fun i hi => mem_nil_elim hi, ?_⟩
      · split
        · next hc => exact appendRel_evolve _ _ _ (any_id_false_of_cond hc)
        · exact mapsEvolve_refl ns rs
      · intro i hi hne
        have hi' : i ∈ [pyStr (pyGet parsed "id" (.pstr ""))] := hi
        simp only [List.mem_singleton] at hi'
        subst hi'
        have hb : (pyStr (pyGet parsed "id" (.pstr "")) != "") = true := by simpa using hne
        split
        · next hc =>
          simp only [relIdsOf, List.map_append, List.map_cons, List.map_nil]
          exact List.mem_append_right _ (List.mem_singleton.mpr rfl)
        · next hc => exact mem_relIds_of_any (any_id_true_of_not_cond hb hc)
    · simp only [eq_false_of_ne_true he, Bool.false_eq_true, if_false]
      exact ⟨mapsEvolve_refl ns rs, fun i hi => mem_nil_elim hi, fun i hi => mem_nil_elim hi⟩

theorem serializeAgeValue_inv (val : PyVal) (ns : List GraphNode)
    (rs : List GraphRelationship) :
    MapsEvolve ns (serializeAgeValue val ns rs).2.1 rs (serializeAgeValue val ns rs).2.2 ∧
    (∀ i ∈ cellNodeIds (serializeAgeValue val ns rs).1, i ≠ "" →
        i ∈ nodeIdsOf (serializeAgeValue val ns rs).2.1) ∧
    (∀ i ∈ cellRelIds (serializeAgeValue val ns rs).1, i ≠ "" →
        i ∈ relIdsOf (serializeAgeValue val ns rs).2.2) := by
  cases val with
  | pstr s =>
    by_cases h1 : (strStartsWith "[" s && containsSub "::path" s) = true
    · simp only [serializeAgeValue, h1, if_true]
      obtain ⟨he, hn, hr⟩ := processAgePath_inv s ns rs
      refine ⟨he, ?_, ?_⟩
      · intro i hi
        rw [hn] at hi
        exact mem_nil_elim hi
      · intro i hi
        rw [hr] at hi
        exact mem_nil_elim hi
    · simp only [serializeAgeValue, eq_false_of_ne_true h1, Bool.false_eq_true, if_false]
      by_cases h2 : strStartsWith "\x7b" s = true
      · cases hjl : jsonLoads (pyReplace (pyReplace s "::vertex" "") "::edge" "") with
        | some parsed =>
          simp only [h2, if_true, hjl]
          exact processAgeGraphElement_inv parsed ns rs s
        | none =>
          simp only [h2, if_true, hjl]
          exact ⟨mapsEvolve_refl ns rs, fun i hi => mem_nil_elim hi,
            fun i hi => mem_nil_elim hi⟩
      · simp only [eq_false_of_ne_true h2, Bool.false_eq_true, if_false]
        exact ⟨mapsEvolve_refl ns rs, fun i hi => mem_nil_elim hi,
          fun i hi => mem_nil_elim hi⟩
  | pnull =>
    exact ⟨mapsEvolve_refl ns rs, fun i hi => mem_nil_elim hi, fun i hi => mem_nil_elim hi⟩
  | pbool b =>
    exact ⟨mapsEvolve_refl ns rs, fun i hi => mem_nil_elim hi, fun i hi => mem_nil_elim hi⟩
  | pint n =>
    exact ⟨mapsEvolve_refl ns rs, fun i hi => mem_nil_elim hi, fun i hi => mem_nil_elim hi⟩
  | pfloat l =>
    exact ⟨mapsEvolve_refl ns rs, fun i hi => mem_nil_elim hi, fun i hi => mem_nil_elim hi⟩
  | plist xs =>
    exact ⟨mapsEvolve_refl ns rs, fun i hi => mem_nil_elim hi, fun i hi => mem_nil_elim hi⟩
  | pdict kvs =>
    exact ⟨mapsEvolve_refl ns rs, fun i hi => mem_nil_elim hi, fun i hi => mem_nil_elim hi⟩

theorem serializeAgeRow_inv (row : List PyVal) (ns : List GraphNode)
    (rs : List GraphRelationship) :
    MapsEvolve ns (serializeAgeRow row ns rs).2.1 rs (serializeAgeRow row ns rs).2.2 ∧
    (∀ i ∈ cellsNodeIds (serializeAgeRow row ns rs).1, i ≠ "" →
        i ∈ nodeIdsOf (serializeAgeRow row ns rs).2.1) ∧
    (∀ i ∈ cellsRelIds (serializeAgeRow row ns rs).1, i ≠ "" →
        i ∈ relIdsOf (serializeAgeRow row ns rs).2.2) := by
  induction row generalizing ns rs with
  | nil =>
    exact ⟨mapsEvolve_refl ns rs, fun i hi => mem_nil_elim hi, fun i hi => mem_nil_elim hi⟩
  | cons v vs ih =>
    obtain ⟨he1, hn1, hr1⟩ := serializeAgeValue_inv v ns rs
    obtain ⟨he2, hn2, hr2⟩ := ih (serializeAgeValue v ns rs).2.1 (serializeAgeValue v ns rs).2.2
    refine ⟨mapsEvolve_trans he1 he2, ?_, ?_⟩
    · intro i hi hne
      have hi' : i ∈ cellNodeIds (serializeAgeValue v ns rs).1 ++
          cellsNodeIds (serializeAgeRow vs
            (serializeAgeValue v ns rs).2.1 (serializeAgeValue v ns rs).2.2).1 := hi
      rcases List.mem_append.mp hi' with h | h
      · exact he2.nodeMono i (hn1 i h hne)
      · exact hn2 i h hne
    · intro i hi hne
      have hi' : i ∈ cellRelIds (serializeAgeValue v ns rs).1 ++
          cellsRelIds (serializeAgeRow vs
            (serializeAgeValue v ns rs).2.1 (serializeAgeValue v ns rs).2.2).1 := hi
      rcases List.mem_append.mp hi' with h | h
      · exact he2.relMono i (hr1 i h hne)
      · exact hr2 i h hne

theorem serializeAgeRows_inv (rowsRaw : List (List PyVal)) (ns : List GraphNode)
    (rs : List GraphRelationship) :
    MapsEvolve ns (serializeAgeRows rowsRaw ns rs).2.1 rs (serializeAgeRows rowsRaw ns rs).2.2 ∧
    (∀ i ∈ rowsNodeIds (serializeAgeRows rowsRaw ns rs).1, i ≠ "" →
        i ∈ nodeIdsOf (serializeAgeRows rowsRaw ns rs).2.1) ∧
    (∀ i ∈ rowsRelIds (serializeAgeRows rowsRaw ns rs).1, i ≠ "" →
        i ∈ relIdsOf (serializeAgeRows rowsRaw ns rs).2.2) := by
  induction rowsRaw generalizing ns rs with
  | nil =>
    exact ⟨mapsEvolve_refl ns rs, fun i hi => mem_nil_elim hi, fun i hi => mem_nil_elim hi⟩
  | cons row rest ih =>
    obtain ⟨he1, hn1, hr1⟩ := serializeAgeRow_inv row ns rs
    obtain ⟨he2, hn2, hr2⟩ := ih (serializeAgeRow row ns rs).2.1 (serializeAgeRow row ns rs).2.2
    refine ⟨mapsEvolve_trans he1 he2, ?_, ?_⟩
    · intro i hi hne
      have hi' : i ∈ cellsNodeIds (serializeAgeRow row ns rs).1 ++
          rowsNodeIds (serializeAgeRows rest
            (serializeAgeRow row ns rs).2.1 (serializeAgeRow row ns rs).2.2).1 := hi
      rcases List.mem_append.mp hi' with h | h
      · exact he2.nodeMono i (hn1 i h hne)
      · exact hn2 i h hne
    · intro i hi hne
      have hi' : i ∈ cellsRelIds (serializeAgeRow row ns rs).1 ++
          rowsRelIds (serializeAgeRows rest
            (serializeAgeRow row ns rs).2.1 (serializeAgeRow row ns rs).2.2).1 := hi
      rcases List.mem_append.mp hi' with h | h
      · exact he2.relMono i (hr1 i h hne)
      · exact hr2 i h hne

theorem transformAgeResults_inv (columns : List String) (rowsRaw : List (List PyVal)) :
    (nodeIdsOf (transformAgeResults columns rowsRaw).nodes).Nodup ∧
    (relIdsOf (transformAgeResults columns rowsRaw).relationships).Nodup ∧
    (∀ i ∈ rowsNodeIds (transformAgeResults columns rowsRaw).rows, i ≠ "" →
        i ∈ nodeIdsOf (transformAgeResults columns rowsRaw).nodes) ∧
    (∀ i ∈ rowsRelIds (transformAgeResults columns rowsRaw).rows, i ≠ "" →
        i ∈ relIdsOf (transformAgeResults columns rowsRaw).relationships) := by
  obtain ⟨he, hn, hr⟩ := serializeAgeRows_inv rowsRaw [] []
  exact ⟨he.nodeNodup (by simp [nodeIdsOf]), he.relNodup (by simp [relIdsOf]),
    fun i hi hne => hn i hi hne, fun i hi hne => hr i hi hne⟩

/-! ## Counting, classifier and registry lemmas -/

theorem filter_length_one_of_nodup_map {α : Type} (l : List α) (f : α → String) (i : String)
    (hn : (l.map f).Nodup) (hi : i ∈ l.map f) :
    (l.filter (fun a => f a == i)).length = 1 := by
  induction l with
  | nil => simp at hi
  | cons a l ih =>
    rw [List.map_cons, List.nodup_cons] at hn
    obtain ⟨ha, hn'⟩ := hn
    rw [List.map_cons, List.mem_cons] at hi
    rw [List.filter_cons]
    rcases hi with hi | hi
    · subst hi
      simp only [beq_self_eq_true, if_true]
      rw [List.length_cons]
      have hz : l.filter (fun b => f b == f a) = [] := by
        rw [List.filter_eq_nil_iff]
        intro b hb
        simp only [beq_iff_eq]
        exact fun hcontra => ha (hcontra ▸ List.mem_map_of_mem f hb)
      rw [hz]
      rfl
    · have hne : (f a == i) = false := by
        rw [beq_eq_false_iff_ne]
        exact fun hcontra => ha (hcontra ▸ hi)
      simp only [hne, Bool.false_eq_true, if_false]
      exact ih hn' hi

theorem checkGraphCompatible_eq_true (rows : List (List Cell)) :
    checkGraphCompatible rows = true ↔ ∀ row ∈ rows, ∀ c ∈ row, isGraphValue c = true := by
  simp [checkGraphCompatible, List.all_eq_true]

theorem isPathsOnly_eq_true (rows : List (List Cell)) (h1 : rows ≠ [])
    (h2 : ∀ row ∈ rows, ∀ c ∈ row, ∃ d, c = Cell.pathRef d) : isPathsOnly rows = true := by
  unfold isPathsOnly
  have e1 : rows.isEmpty = false := by
    cases rows with
    | nil => exact absurd rfl h1
    | cons r rest => rfl
  rw [e1]
  simp only [Bool.not_false, Bool.true_and]
  rw [List.all_eq_true]
  intro row hrow
  rw [List.all_eq_true]
  intro c hc
  obtain ⟨d, rfl⟩ := h2 row hrow c hc
  rfl

theorem checkGraphCompatible_of_pathRefs (rows : List (List Cell))
    (h2 : ∀ row ∈ rows, ∀ c ∈ row, ∃ d, c = Cell.pathRef d) :
    checkGraphCompatible rows = true := by
  rw [checkGraphCompatible_eq_true]
  intro row hrow c hc
  obtain ⟨d, rfl⟩ := h2 row hrow c hc
  rfl

theorem transformNeo4j_flag_eq (r0 : List (String × NVal))
    (rest : List (List (String × NVal))) :
    (transformNeo4jResults (r0 :: rest)).is_graph_compatible
      = (checkGraphCompatible (transformNeo4jResults (r0 :: rest)).rows &&
         decide ((transformNeo4jResults (r0 :: rest)).relationships.length > 0)) ∧
    (transformNeo4jResults (r0 :: rest)).is_paths_only
      = isPathsOnly (transformNeo4jResults (r0 :: rest)).rows := ⟨rfl, rfl⟩

theorem transformAge_flag_eq (columns : List String) (rowsRaw : List (List PyVal)) :
    (transformAgeResults columns rowsRaw).is_graph_compatible
      = (checkGraphCompatible (transformAgeResults columns rowsRaw).rows &&
         decide ((transformAgeResults columns rowsRaw).relationships.length > 0)) ∧
    (transformAgeResults columns rowsRaw).is_paths_only
      = isPathsOnly (transformAgeResults columns rowsRaw).rows := ⟨rfl, rfl⟩

theorem registryGet_pop (reg : Registry) (sid : String) :
    registryGet (registryPop reg sid) sid = none := by
  unfold registryGet registryPop
  cases hfind : List.find? (fun kv => kv.1 == sid)
      (List.filter (fun kv => kv.1 != sid) reg) with
  | none => rfl
  | some kv =>
    have h1 := List.find?_some hfind
    have h2 := List.mem_of_find?_eq_some hfind
    rw [List.mem_filter] at h2
    simp only [beq_iff_eq] at h1
    have h3 : kv.1 ≠ sid := by simpa using h2.2
    exact absurd h1 h3

theorem registrySet_cons_ne (kv : String × ExecCtx) (rest : Registry) (sid : String)
    (ctx : ExecCtx) (hk : (kv.1 == sid) = false) :
    registrySet (kv :: rest) sid ctx = kv :: registrySet rest sid ctx := by
  unfold registrySet
  rw [List.any_cons, hk, Bool.false_or]
  by_cases hr : rest.any (fun kv => kv.1 == sid) = true
  · simp only [hr, if_true, List.map_cons, hk, Bool.false_eq_true, if_false]
  · simp only [eq_false_of_ne_true hr, Bool.false_eq_true, if_false, List.cons_append]

theorem registryGet_set (reg : Registry) (sid : String) (ctx : ExecCtx) :
    registryGet (registrySet reg sid ctx) sid = some ctx := by
  induction reg with
  | nil => simp [registrySet, registryGet]
  | cons kv rest ih =>
    by_cases hk : (kv.1 == sid) = true
    · have hany : List.any (kv :: rest) (fun kv => kv.1 == sid) = true := by
        rw [List.any_cons, hk, Bool.true_or]
      unfold registrySet
      rw [hany]
      simp only [if_true, List.map_cons, hk]
      unfold registryGet
      rw [List.find?_cons_of_pos _ (by simp)]
    · rw [registrySet_cons_ne kv rest sid ctx (eq_false_of_ne_true hk)]
      unfold registryGet
      rw [List.find?_cons_of_neg _ (by simp [eq_false_of_ne_true hk])]
      exact ih

theorem startsWith_brace_not_bracket (s : String) (h : strStartsWith "\x7b" s = true) :
    strStartsWith "[" s = false := by
  cases hcs : s.toList with
  | nil =>
    unfold strStartsWith at h
    rw [hcs] at h
    simp [listStarts] at h
  | cons c t =>
    unfold strStartsWith at h ⊢
    rw [hcs] at h ⊢
    simp only [listStarts] at h ⊢
    simp only [Bool.and_eq_true, beq_iff_eq] at h
    have hc : c = '\x7b' := h.1.symm
    subst hc
    simp

/-! ## Claim theorems -/

/-- C1 (corrected): for every canonical result produced from a nonempty
record set on the graph-native backend, and from any input on the
relational backend, `is_graph_compatible = true` holds iff every cell of
every row is a graph-reference dict (`__type` of node/rel/path, as the
classifier checks) and the relationship set is nonempty.  The original
claim fails only at the graph-native transform of an empty record set,
which returns the dataclass default `is_graph_compatible = true` with an
empty relationship set. -/
theorem C1_graph_compatible_iff (records : List (List (String × NVal)))
    (hne : records ≠ []) (columns : List String) (rowsRaw : List (List PyVal)) :
    ((transformNeo4jResults records).is_graph_compatible = true ↔
      ((∀ row ∈ (transformNeo4jResults records).rows, ∀ c ∈ row, isGraphValue c = true) ∧
       (transformNeo4jResults records).relationships ≠ [])) ∧
    ((transformAgeResults columns rowsRaw).is_graph_compatible = true ↔
      ((∀ row ∈ (transformAgeResults columns rowsRaw).rows, ∀ c ∈ row,
          isGraphValue c = true) ∧
       (transformAgeResults columns rowsRaw).relationships ≠ [])) := by
  constructor
  · cases records with
    | nil => exact absurd rfl hne
    | cons r0 rest =>
      rw [(transformNeo4j_flag_eq r0 rest).1, Bool.and_eq_true,
        checkGraphCompatible_eq_true, decide_eq_true_eq, gt_iff_lt, List.length_pos]
  · rw [(transformAge_flag_eq columns rowsRaw).1, Bool.and_eq_true,
      checkGraphCompatible_eq_true, decide_eq_true_eq, gt_iff_lt, List.length_pos]

/-- C1 counterexample: on the graph-native backend an empty record set
yields `is_graph_compatible = true` while the relationship set is empty,
so the claimed iff is false there. -/
theorem C1_counterexample :
    ¬ ((transformNeo4jResults []).is_graph_compatible = true ↔
       ((∀ row ∈ (transformNeo4jResults []).rows, ∀ c ∈ row, isGraphValue c = true) ∧
        (transformNeo4jResults []).relationships ≠ [])) := by
  intro h
  have h1 : (transformNeo4jResults []).is_graph_compatible = true := rfl
  exact (h.mp h1).2 rfl

/-- C1 witness: the amended iff at one concrete input per backend. -/
theorem C1_witness :
    ((transformNeo4jResults [[("x", NVal.nscalar PyVal.pnull)]]).is_graph_compatible = true ↔
      ((∀ row ∈ (transformNeo4jResults [[("x", NVal.nscalar PyVal.pnull)]]).rows,
          ∀ c ∈ row, isGraphValue c = true) ∧
       (transformNeo4jResults [[("x", NVal.nscalar PyVal.pnull)]]).relationships ≠ [])) ∧
    ((transformAgeResults ["c"] [[PyVal.pnull]]).is_graph_compatible = true ↔
      ((∀ row ∈ (transformAgeResults ["c"] [[PyVal.pnull]]).rows, ∀ c ∈ row,
          isGraphValue c = true) ∧
       (transformAgeResults ["c"] [[PyVal.pnull]]).relationships ≠ [])) :=
  C1_graph_compatible_iff [[("x", NVal.nscalar PyVal.pnull)]] (by simp) ["c"] [[PyVal.pnull]]

/-- C2 (corrected): a produced result whose row set is nonempty and whose
cells are all kind-path references has `is_paths_only = true`; but
`is_graph_compatible` then equals the nonemptiness of the relationship set
(paths register the relationships they contain), not constantly `false` as
claimed — it is false exactly when the paths contributed no relationship. -/
theorem C2_paths_only (records : List (List (String × NVal))) (columns : List String)
    (rowsRaw : List (List PyVal)) :
    ((transformNeo4jResults records).rows ≠ [] →
      (∀ row ∈ (transformNeo4jResults records).rows, ∀ c ∈ row, ∃ d, c = Cell.pathRef d) →
      (transformNeo4jResults records).is_paths_only = true ∧
        ((transformNeo4jResults records).is_graph_compatible = true ↔
         (transformNeo4jResults records).relationships ≠ [])) ∧
    ((transformAgeResults columns rowsRaw).rows ≠ [] →
      (∀ row ∈ (transformAgeResults columns rowsRaw).rows, ∀ c ∈ row,
        ∃ d, c = Cell.pathRef d) →
      (transformAgeResults columns rowsRaw).is_paths_only = true ∧
        ((transformAgeResults columns rowsRaw).is_graph_compatible = true ↔
         (transformAgeResults columns rowsRaw).relationships ≠ [])) := by
  constructor
  · intro hrows hcells
    cases records with
    | nil => exact absurd rfl hrows
    | cons r0 rest =>
      obtain ⟨hflag, hpflag⟩ := transformNeo4j_flag_eq r0 rest
      constructor
      · rw [hpflag]
        exact isPathsOnly_eq_true _ hrows hcells
      · rw [hflag, Bool.and_eq_true, decide_eq_true_eq, gt_iff_lt, List.length_pos]
        constructor
        · rintro ⟨_, h⟩
          exact h
        · intro h
          exact ⟨checkGraphCompatible_of_pathRefs _ hcells, h⟩
  · intro hrows hcells
    obtain ⟨hflag, hpflag⟩ := transformAge_flag_eq columns rowsRaw
    constructor
    · rw [hpflag]
      exact isPathsOnly_eq_true _ hrows hcells
    · rw [hflag, Bool.and_eq_true, decide_eq_true_eq, gt_iff_lt, List.length_pos]
      constructor
      · rintro ⟨_, h⟩
        exact h
      · intro h
        exact ⟨checkGraphCompatible_of_pathRefs _ hcells, h⟩

/-- C2 counterexample: a relational result consisting of one path cell
containing one relationship is nonempty and entirely kind-path, yet
`is_graph_compatible = true`, refuting the claimed `false`. -/
theorem C2_counterexample :
    ¬ (((transformAgeResults ["p"] [[.pstr agePathSample]]).rows ≠ [] ∧
        ∀ row ∈ (transformAgeResults ["p"] [[.pstr agePathSample]]).rows, ∀ c ∈ row,
          ∃ d, c = Cell.pathRef d) →
       (transformAgeResults ["p"] [[.pstr agePathSample]]).is_paths_only = true ∧
       (transformAgeResults ["p"] [[.pstr agePathSample]]).is_graph_compatible = false) := by
  intro h
  have hrows : (transformAgeResults ["p"] [[.pstr agePathSample]]).rows
      = [[Cell.pathRef "Path(nodes=2, rels=1)"]] := rfl
  have hcells : ∀ row ∈ (transformAgeResults ["p"] [[.pstr agePathSample]]).rows,
      ∀ c ∈ row, ∃ d, c = Cell.pathRef d := by
    rw [hrows]
    intro row hrow c hc
    simp only [List.mem_singleton] at hrow
    subst hrow
    simp only [List.mem_singleton] at hc
    subst hc
    exact ⟨_, rfl⟩
  have hne : (transformAgeResults ["p"] [[.pstr agePathSample]]).rows ≠ [] := by
    rw [hrows]
    simp
  have hfl := (h ⟨hne, hcells⟩).2
  have hflag : (transformAgeResults ["p"] [[.pstr agePathSample]]).is_graph_compatible
      = true := rfl
  rw [hflag] at hfl
  simp at hfl

/-- C2 witness: the amended statement applied at one concrete paths-only
input per backend (paths with no relationships, so the flag is false). -/
theorem C2_witness :
    ((transformNeo4jResults [[("p", NVal.npath [] [])]]).is_paths_only = true ∧
      ((transformNeo4jResults [[("p", NVal.npath [] [])]]).is_graph_compatible = true ↔
       (transformNeo4jResults [[("p", NVal.npath [] [])]]).relationships ≠ [])) ∧
    ((transformAgeResults ["p"] [[.pstr "[]::path"]]).is_paths_only = true ∧
      ((transformAgeResults ["p"] [[.pstr "[]::path"]]).is_graph_compatible = true ↔
       (transformAgeResults ["p"] [[.pstr "[]::path"]]).relationships ≠ [])) := by
  have h := C2_paths_only [[("p", NVal.npath [] [])]] ["p"] [[.pstr "[]::path"]]
  have hrows1 : (transformNeo4jResults [[("p", NVal.npath [] [])]]).rows
      = [[Cell.pathRef "Path(length=0)"]] := rfl
  have hrows2 : (transformAgeResults ["p"] [[.pstr "[]::path"]]).rows
      = [[Cell.pathRef "Path(nodes=0, rels=0)"]] := rfl
  refine ⟨h.1 (by rw [hrows1]; simp) ?_, h.2 (by rw [hrows2]; simp) ?_⟩
  · rw [hrows1]
    intro row hrow c hc
    simp only [List.mem_singleton] at hrow
    subst hrow
    simp only [List.mem_singleton] at hc
    subst hc
    exact ⟨_, rfl⟩
  · rw [hrows2]
    intro row hrow c hc
    simp only [List.mem_singleton] at hrow
    subst hrow
    simp only [List.mem_singleton] at hc
    subst hc
    exact ⟨_, rfl⟩

/-- C3 (corrected): a string cell whose body fails to parse as JSON, or
which carries no recognized tag at all, passes through unchanged; but a
string that parses as a JSON object while carrying neither a vertex nor an
edge marker is replaced by `str(parsed)` — the Python rendering of the
parsed object — which is in general a different string than the original
(see the counterexample), contradicting "returns the original string value
unchanged" for that case. -/
theorem C3_opaque_fallthrough :
    (∀ (s : String) (ns : List GraphNode) (rs : List GraphRelationship),
      strStartsWith "\x7b" s = false →
      (strStartsWith "[" s = false ∨ containsSub "::path" s = false) →
      serializeAgeValue (.pstr s) ns rs = (Cell.scalar (.pstr s), ns, rs)) ∧
    (∀ (s : String) (ns : List GraphNode) (rs : List GraphRelationship),
      strStartsWith "\x7b" s = true →
      jsonLoads (pyReplace (pyReplace s "::vertex" "") "::edge" "") = none →
      serializeAgeValue (.pstr s) ns rs = (Cell.scalar (.pstr s), ns, rs)) ∧
    (∀ (s : String) (parsed : PyVal) (ns : List GraphNode) (rs : List GraphRelationship),
      strStartsWith "\x7b" s = true →
      jsonLoads (pyReplace (pyReplace s "::vertex" "") "::edge" "") = some parsed →
      containsSub "::vertex" s = false → containsSub "::edge" s = false →
      serializeAgeValue (.pstr s) ns rs = (Cell.scalar (.pstr (pyStr parsed)), ns, rs)) ∧
    (∀ (s : String) (ns : List GraphNode) (rs : List GraphRelationship),
      strStartsWith "[" s = true → containsSub "::path" s = true →
      jsonLoads (pyReplace (pyReplace (pyReplace s "::path" "") "::vertex" "") "::edge" "")
        = none →
      serializeAgeValue (.pstr s) ns rs = (Cell.scalar (.pstr s), ns, rs)) := by
  refine ⟨?_, ?_, ?_, ?_⟩
  · intro s ns rs h1 h2
    have hc : (strStartsWith "[" s && containsSub "::path" s) = false := by
      rcases h2 with h2 | h2 <;> simp [h2]
    simp only [serializeAgeValue, hc, Bool.false_eq_true, if_false, h1]
  · intro s ns rs h1 hjl
    have hc : (strStartsWith "[" s && containsSub "::path" s) = false := by
      simp [startsWith_brace_not_bracket s h1]
    simp only [serializeAgeValue, hc, Bool.false_eq_true, if_false, h1, if_true, hjl]
  · intro s parsed ns rs h1 hjl hv he
    have hc : (strStartsWith "[" s && containsSub "::path" s) = false := by
      simp [startsWith_brace_not_bracket s h1]
    simp only [serializeAgeValue, hc, Bool.false_eq_true, if_false, h1, if_true, hjl]
    simp only [processAgeGraphElement, hv, Bool.false_eq_true, if_false, he]
  · intro s ns rs h1 h2 hjl
    have hc : (strStartsWith "[" s && containsSub "::path" s) = true := by
      rw [h1, h2]
      rfl
    simp only [serializeAgeValue, hc, if_true]
    simp only [processAgePath, hjl]

/-- C3 counterexample: the object-shaped string `{"a":1}` matches no
vertex/edge/path shape, yet the normalizer returns `str(parsed)` =
`{'a': 1}`, not the original string. -/
theorem C3_counterexample :
    serializeAgeValue (.pstr "\x7b\"a\":1\x7d") [] []
      = (Cell.scalar (.pstr "\x7b\x27a\x27: 1\x7d"), [], []) ∧
    ("\x7b\x27a\x27: 1\x7d" : String) ≠ "\x7b\"a\":1\x7d" := ⟨rfl, by decide⟩

/-- C3 witness: the pass-through conjuncts at concrete inputs (an untagged
plain string, and an unparseable brace-prefixed string). -/
theorem C3_witness :
    serializeAgeValue (.pstr "hello") [] [] = (Cell.scalar (.pstr "hello"), [], []) ∧
    serializeAgeValue (.pstr "\x7bnot json") [] []
      = (Cell.scalar (.pstr "\x7bnot json"), [], []) :=
  ⟨C3_opaque_fallthrough.1 "hello" [] [] rfl (Or.inl rfl),
   C3_opaque_fallthrough.2.1 "\x7bnot json" [] [] rfl rfl⟩

/-- C4 (confirmed): after `execute_query` returns — canonical result,
backend error, timeout, cancellation, or even a propagated exception — the
registry holds no execution record for the session id; and a query that
hits the deadline returns a `TIMEOUT` error on either backend (for the
relational backend the shared abort signal is classified as timeout when
the cancelled flag is unset). -/
theorem C4_registry_cleanup (run : BackendRun) (flag : Bool) (sid qid : String)
    (reg : Registry) (pid : Option Int) :
    registryGet (executeQuery run flag sid qid reg).2 sid = none ∧
    (executeQuery (.neo4jRun .timedOut) flag sid qid reg).1
      = .err { message := "Query timed out", code := some "TIMEOUT" } ∧
    (executeQuery (.ageRun pid .queryCanceled) false sid qid reg).1
      = .err { message := "Query timed out", code := some "TIMEOUT" } := by
  refine ⟨?_, rfl, ?_⟩
  · cases run with
    | preFailure msg => exact registryGet_pop reg sid
    | neo4jRun o =>
      cases o with
      | success records => exact registryGet_pop _ sid
      | timedOut => exact registryGet_pop _ sid
      | failed msg =>
        cases flag with
        | true => exact registryGet_pop _ sid
        | false => exact registryGet_pop _ sid
    | ageRun pid' o =>
      cases o with
      | success columns rowsRaw => exact registryGet_pop _ sid
      | queryCanceled =>
        cases flag with
        | true => exact registryGet_pop _ sid
        | false => exact registryGet_pop _ sid
      | pgError msg code => exact registryGet_pop _ sid
      | raisedAfterRegister msg => exact registryGet_pop _ sid
  · rfl

/-- C5 (confirmed): `cancel_query` returns `false` when no record is
registered for the session id (registry and action log untouched); with
a registered record it sets the cancelled flag and then either closes the
native session (returning `true`), or issues `pg_cancel_backend` against
the captured pid over the side connection (returning `true` when that
succeeds). -/
theorem C5_cancel_query (reg : Registry) (ok : Bool) (sid : String) :
    (registryGet reg sid = none → cancelQuery reg ok sid = (false, reg, [])) ∧
    (∀ ctx : ExecCtx, registryGet reg sid = some ctx → ctx.hasNeo4jSession = true →
      cancelQuery reg ok sid
        = (true, registrySet reg sid { ctx with cancelled := true },
           [.closeNeo4jSession sid]) ∧
      registryGet (cancelQuery reg ok sid).2.1 sid = some { ctx with cancelled := true }) ∧
    (∀ (ctx : ExecCtx) (pid : Int), registryGet reg sid = some ctx →
      ctx.hasNeo4jSession = false → ctx.hasPgConn = true → ctx.pgPid = some pid →
      pid ≠ 0 → ok = true →
      cancelQuery reg ok sid
        = (true, registrySet reg sid { ctx with cancelled := true },
           [.pgCancelBackend pid]) ∧
      registryGet (cancelQuery reg ok sid).2.1 sid = some { ctx with cancelled := true }) := by
  refine ⟨?_, ?_, ?_⟩
  · intro hnone
    unfold cancelQuery
    rw [hnone]
  · intro ctx hsome hneo
    unfold cancelQuery
    rw [hsome]
    simp only [hneo, if_true]
    exact ⟨by trivial, registryGet_set reg sid _⟩
  · intro ctx pid hsome hneo hpg hpid hpid0 hok
    unfold cancelQuery
    rw [hsome]
    simp only [hneo, Bool.false_eq_true, if_false, hpid, hpg, Bool.true_and]
    have hbne : (pid != 0) = true := by simpa using hpid0
    rw [hbne]
    simp only [if_true, hok]
    exact ⟨by trivial, registryGet_set reg sid _⟩

/-- C5 witness: the no-record case on an empty registry and the
native-session case on a singleton registry. -/
theorem C5_witness :
    cancelQuery [] true "s1" = (false, [], []) ∧
    cancelQuery [("s1",
        { sessionId := "s1", queryId := "q1", hasNeo4jSession := true,
          hasPgConn := false, pgPid := none, cancelled := false })] true "s1"
      = (true,
         [("s1",
           { sessionId := "s1", queryId := "q1", hasNeo4jSession := true,
             hasPgConn := false, pgPid := none, cancelled := true })],
         [.closeNeo4jSession "s1"]) := by
  have h1 := (C5_cancel_query [] true "s1").1 rfl
  have h2 := ((C5_cancel_query [("s1",
      { sessionId := "s1", queryId := "q1", hasNeo4jSession := true,
        hasPgConn := false, pgPid := none, cancelled := false })] true "s1").2.1
    { sessionId := "s1", queryId := "q1", hasNeo4jSession := true,
      hasPgConn := false, pgPid := none, cancelled := false } rfl rfl).1
  exact ⟨h1, h2⟩

/-- C6 (confirmed): normalizing the vertex-tagged string with body
`{"id":"1","label":"Person","properties":{"name":"Ann"}}` yields exactly
one canonical node with labels `["Person"]` and properties
`{"name": "Ann"}`, and the cell becomes a kind-node reference with display
`"(Person: Ann)"`. -/
theorem C6_vertex_normalization :
    (transformAgeResults ["v"]
        [[.pstr "\x7b\"id\":\"1\",\"label\":\"Person\",\"properties\":\x7b\"name\":\"Ann\"\x7d\x7d::vertex"]]).nodes
      = [{ id := "1", labels := [.pstr "Person"],
           properties := .pdict [("name", .pstr "Ann")] }] ∧
    (transformAgeResults ["v"]
        [[.pstr "\x7b\"id\":\"1\",\"label\":\"Person\",\"properties\":\x7b\"name\":\"Ann\"\x7d\x7d::vertex"]]).rows
      = [[Cell.nodeRef "1" "(Person: Ann)"]] := ⟨rfl, rfl⟩

/-- C7 (confirmed): `"RETURN n, m.name AS mn, count(*)"` resolves to the
ordered column list `["n", "mn", "col3"]`: bare identifier kept, explicit
alias wins, complex expression synthesized as `col<N>`. -/
theorem C7_column_resolution :
    parseCypherReturnColumns "RETURN n, m.name AS mn, count(*)" = ["n", "mn", "col3"] := rfl

/-- C8 (confirmed): the depth-aware comma split keeps the comma inside
`coalesce(a,b)` intact, so `"RETURN coalesce(a,b) AS x, c"` yields exactly
the two fragments and two resolved columns. -/
theorem C8_depth_aware_split :
    splitTopLevelAux "coalesce(a,b) AS x, c".toList [] 0 0 = ["coalesce(a,b) AS x", "c"] ∧
    parseCypherReturnColumns "RETURN coalesce(a,b) AS x, c" = ["x", "c"] ∧
    (parseCypherReturnColumns "RETURN coalesce(a,b) AS x, c").length = 2 := ⟨rfl, rfl, rfl⟩

/-- C9 (confirmed): identities are unique within one produced canonical
result: whenever any cell (hence in particular two or more cells)
references a backend node or relationship identity — a nonempty id, since
an element with a missing id has no backend identity — the corresponding
canonical set contains exactly one entry with that identity. -/
theorem C9_unique_identities (res : QueryResult) (h : ProducedResult res)
    (i : String) (hne : i ≠ "") :
    (i ∈ rowsNodeIds res.rows →
      (res.nodes.filter (fun g => g.id == i)).length = 1) ∧
    (i ∈ rowsRelIds res.rows →
      (res.relationships.filter (fun g => g.id == i)).length = 1) := by
  rcases producedResult_cases res h with ⟨records, rfl⟩ | ⟨columns, rowsRaw, rfl⟩
  · obtain ⟨hnn, hrn, hmn, hmr⟩ := transformNeo4jResults_inv records
    exact ⟨fun hi => filter_length_one_of_nodup_map _ _ i hnn (hmn i hi),
      fun hi => filter_length_one_of_nodup_map _ _ i hrn (hmr i hi)⟩
  · obtain ⟨hnn, hrn, hmn, hmr⟩ := transformAgeResults_inv columns rowsRaw
    exact ⟨fun hi => filter_length_one_of_nodup_map _ _ i hnn (hmn i hi hne),
      fun hi => filter_length_one_of_nodup_map _ _ i hrn (hmr i hi hne)⟩

/-- C9 witness: two rows referencing the vertex with id 1 yield exactly
one canonical node with identity `"1"`. -/
theorem C9_witness :
    ((transformAgeResults ["a"]
        [[.pstr "\x7b\"id\": 1\x7d::vertex"], [.pstr "\x7b\"id\": 1\x7d::vertex"]]).nodes.filter
      (fun g => g.id == "1")).length = 1 := by
  have hp : ProducedResult (transformAgeResults ["a"]
      [[.pstr "\x7b\"id\": 1\x7d::vertex"], [.pstr "\x7b\"id\": 1\x7d::vertex"]]) :=
    ⟨.ageRun none (.success ["a"]
        [[.pstr "\x7b\"id\": 1\x7d::vertex"], [.pstr "\x7b\"id\": 1\x7d::vertex"]]),
      false, "s", "q", [], [], rfl⟩
  have h := C9_unique_identities _ hp "1" (by decide)
  apply h.1
  have hids : rowsNodeIds (transformAgeResults ["a"]
      [[.pstr "\x7b\"id\": 1\x7d::vertex"], [.pstr "\x7b\"id\": 1\x7d::vertex"]]).rows
      = ["1", "1"] := rfl
  rw [hids]
  simp

/-- C10 counterexample: a vertex element with no id yields a kind-node
reference cell with identity `""` while registering no canonical node — a
dangling reference, contrary to the claim's "including for elements whose
backend identity field is missing or empty". -/
theorem C10_counterexample :
    ¬ (∀ i ∈ rowsNodeIds (transformAgeResults ["v"] [[.pstr "\x7b\x7d::vertex"]]).rows,
        i ∈ nodeIdsOf (transformAgeResults ["v"] [[.pstr "\x7b\x7d::vertex"]]).nodes) := by
  intro h
  have hmem : "" ∈ rowsNodeIds
      (transformAgeResults ["v"] [[.pstr "\x7b\x7d::vertex"]]).rows := by
    have hids : rowsNodeIds
        (transformAgeResults ["v"] [[.pstr "\x7b\x7d::vertex"]]).rows = [""] := rfl
    rw [hids]
    simp
  have hdangling := h "" hmem
  have hnil : nodeIdsOf (transformAgeResults ["v"] [[.pstr "\x7b\x7d::vertex"]]).nodes
      = [] := rfl
  rw [hnil] at hdangling
  simp at hdangling

/-- C10 (corrected): in every produced canonical result, every kind-node /
kind-relationship reference cell with a nonempty identity names an entry of
the corresponding set; on the graph-native backend this holds for every
referenced identity, while a relational element with a missing or empty id
yields a reference cell carrying identity `""` and no set entry. -/
theorem C10_no_dangling (res : QueryResult) (h : ProducedResult res) (i : String) :
    ((∃ records, res = transformNeo4jResults records) →
      (i ∈ rowsNodeIds res.rows → i ∈ nodeIdsOf res.nodes) ∧
      (i ∈ rowsRelIds res.rows → i ∈ relIdsOf res.relationships)) ∧
    (i ≠ "" →
      (i ∈ rowsNodeIds res.rows → i ∈ nodeIdsOf res.nodes) ∧
      (i ∈ rowsRelIds res.rows → i ∈ relIdsOf res.relationships)) := by
  constructor
  · rintro ⟨records, rfl⟩
    obtain ⟨_, _, hmn, hmr⟩ := transformNeo4jResults_inv records
    exact ⟨fun hi => hmn i hi, fun hi => hmr i hi⟩
  · intro hne
    rcases producedResult_cases res h with ⟨records, rfl⟩ | ⟨columns, rowsRaw, rfl⟩
    · obtain ⟨_, _, hmn, hmr⟩ := transformNeo4jResults_inv records
      exact ⟨fun hi => hmn i hi, fun hi => hmr i hi⟩
    · obtain ⟨_, _, hmn, hmr⟩ := transformAgeResults_inv columns rowsRaw
      exact ⟨fun hi => hmn i hi hne, fun hi => hmr i hi hne⟩

/-- C10 witness: the nonempty identity `"1"` referenced by a vertex cell is
present in the node set of the produced result. -/
theorem C10_witness :
    "1" ∈ nodeIdsOf (transformAgeResults ["v"] [[.pstr "\x7b\"id\": 1\x7d::vertex"]]).nodes := by
  have hp : ProducedResult (transformAgeResults ["v"] [[.pstr "\x7b\"id\": 1\x7d::vertex"]]) :=
    ⟨.ageRun none (.success ["v"] [[.pstr "\x7b\"id\": 1\x7d::vertex"]]),
      false, "s", "q", [], [], rfl⟩
  have h := (C10_no_dangling _ hp "1").2 (by decide)
  apply h.1
  have hids : rowsNodeIds
      (transformAgeResults ["v"] [[.pstr "\x7b\"id\": 1\x7d::vertex"]]).rows = ["1"] := rfl
  rw [hids]
  simp

/-! ## Concrete evaluation checks -/

example : jsonLoads "\x7b\"a\":1\x7d" = some (.pdict [("a", .pint 1)]) := rfl

example : jsonLoads "[1, \"x\", null, true]"
    = some (.plist [.pint 1, .pstr "x", .pnull, .pbool true]) := rfl

example : jsonLoads "\x7b\"a\":1" = none := rfl

example : jsonLoads "nope" = none := rfl

example : pyStr (.pdict [("a", .pint 1)]) = "\x7b\x27a\x27: 1\x7d" := rfl

example :
    serializeAgeValue (.pstr "\x7b\"a\":1\x7d") [] []
      = (Cell.scalar (.pstr "\x7b\x27a\x27: 1\x7d"), [], []) := rfl

example :
    (transformAgeResults ["v"]
      [[.pstr "\x7b\"id\":\"1\",\"label\":\"Person\",\"properties\":\x7b\"name\":\"Ann\"\x7d\x7d::vertex"]]).rows
      = [[Cell.nodeRef "1" "(Person: Ann)"]] := rfl

example : parseCypherReturnColumns "RETURN n, m.name AS mn, count(*)" = ["n", "mn", "col3"] := rfl

example : parseCypherReturnColumns "RETURN coalesce(a,b) AS x, c" = ["x", "c"] := rfl

example : parseCypherReturnColumns "MATCH (n) WHERE n.x = 1" = ["result"] := rfl

example : parseCypherReturnColumns "MATCH (n) RETURN DISTINCT n.name ORDER BY n.name LIMIT 3" = ["name"] := rfl

example : parseCypherReturnColumns "RETURN [a, b] AS xs, n" = ["xs", "n"] := rfl

example :
    (transformAgeResults ["p"] [[.pstr agePathSample]]).rows
      = [[Cell.pathRef "Path(nodes=2, rels=1)"]] := rfl

example : (transformAgeResults ["p"] [[.pstr agePathSample]]).is_graph_compatible = true := rfl

example :
    transformNeo4jResults [[("p", NVal.npath [] [])]]
      = { columns := ["p"], rows := [[Cell.pathRef "Path(length=0)"]], nodes := [],
          relationships := [], row_count := 1, is_graph_compatible := false,
          is_paths_only := true } := rfl

example : parseCypherReturnColumns "RETURN   LIMIT 5" = ["col1"] := rfl

example : parseCypherReturnColumns "RETURN a AS b AS c" = ["c"] := rfl

example : parseCypherReturnColumns "RETURN" = ["result"] := rfl

example : parseCypherReturnColumns "foo RETURNS x RETURN y" = ["y"] := rfl

example : parseCypherReturnColumns "RETURN a skipping b" = ["a"] := rfl

example : jsonLoads "\x7b\"a\": 1, \"a\": 2\x7d" = some (.pdict [("a", .pint 2)]) := rfl

example : jsonLoads "-12" = some (.pint (-12)) := rfl

example : serializeAgeValue (.pstr "\x7b\x7d::vertex") [] []
    = (Cell.nodeRef "" "(Node)", [], []) := rfl

example :
    (transformAgeResults ["e"]
      [[.pstr "\x7b\"id\": 7, \"label\": \"KNOWS\", \"start_id\": 1, \"end_id\": 2, \"properties\": \x7b\x7d\x7d::edge"]]).relationships
    = [{ id := "7", type := .pstr "KNOWS", start_node_id := "1", end_node_id := "2",
         properties := .pdict [] }] := rfl

example :
    (transformAgeResults ["e"]
      [[.pstr "\x7b\"id\": 7, \"label\": \"KNOWS\", \"start_id\": 1, \"end_id\": 2, \"properties\": \x7b\x7d\x7d::edge"]]).rows
    = [[Cell.relRef "7" "-[:KNOWS]->"]] := rfl
